import Mathlib

/-!
Verification development for the reflection-driven object mapper of the
go-app repository (package `mapper`, with its `reflection` helpers).

The Go source is shallowly embedded here:

* Go `reflect.Type` values become the inductive `GoType`.  Named struct
  types carry their name; field lists and method sets of a named struct
  are looked up in a `TypeEnv`, mirroring how Go attaches fields and
  methods to a named type.
* The package-level registries `maps` (type pair -> entry) and
  `profiles` (name pair -> correspondence list) become association
  lists inside `RegState`.
* Go map iteration order is unspecified, so every function of the
  source that ranges over a Go map takes the visiting order as an
  explicit `order` parameter (a list of keys).
* The value-transfer engine (`processValues` and friends) is embedded
  further below over an explicit store of heap cells, so that writes,
  allocations and aliasing are observable.  Panics and fuel exhaustion
  are modelled as `none`.
-/

/-- Embedding of the Go `reflect.Type` values the mapper manipulates. -/
inductive GoType where
  | TInt
  | TStr
  | TBool
  | TStruct (name : String)
  | TSlice (elem : GoType)
  | TMap (key elem : GoType)
  | TPtr (elem : GoType)
  | TIface
  deriving Repr, DecidableEq

/-- Fields and zero-argument method names attached to a named struct
type, as Go introspection (NumField / NumMethod) reports them. -/
structure StructInfo where
  fields : List (String × String × GoType)
  methods : List String
  deriving Repr, DecidableEq

/-- Environment resolving a struct name to its declared shape. -/
abbrev TypeEnv := List (String × StructInfo)

namespace AList

/-- Go map read `m[k]`: first binding wins (`insert` keeps keys unique). -/
def lookupA {α β : Type} [DecidableEq α] : List (α × β) → α → Option β
  | [], _ => none
  | (k, v) :: rest, key => if k = key then some v else lookupA rest key

/-- Go map write `m[k] = v`: overwrite the binding if present, else append. -/
def insertA {α β : Type} [DecidableEq α] : List (α × β) → α → β → List (α × β)
  | [], key, v => [(key, v)]
  | (k, w) :: rest, key, v =>
      if k = key then (k, v) :: rest else (k, w) :: insertA rest key v

end AList

open AList

/-- Error values of the mapper package (`ErrNilFunction`, `ErrMapNotExist`,
`ErrMapAlreadyExists`, `ErrUnsupportedMap`, `ErrInvalidStructType`). -/
inductive MapperError where
  | nilFunction
  | mapNotExist
  | mapAlreadyExists
  | unsupportedMap
  | invalidStructType
  deriving Repr, DecidableEq

/-- Value stored in the package-level `maps` registry: `CreateMap` stores
the Go interface value `nil` (here `.generated`), `CreateCustomMap` as
written stores the empty struct `struct{}{}` (here `.marker`), and the
tests install an actual function value directly (here `.custom` with a
symbolic function identifier resolved by the run environment). -/
inductive MapEntry where
  | generated
  | marker
  | custom (fid : String)
  deriving Repr, DecidableEq

/-- Package-level mutable state of the mapper: the `maps` registry and the
`profiles` cache. -/
structure RegState where
  maps : List ((GoType × GoType) × MapEntry)
  profiles : List (String × List (String × String))
  deriving Repr, DecidableEq

/-- Embedding of `isStructOrPointerToStruct` (part_002 lines 543-545). -/
def isStructOrPointerToStruct : GoType → Bool
  | .TStruct _ => true
  | .TPtr (.TStruct _) => true
  | _ => false

/-- Embedding of `getBaseType` (part_002 lines 548-553). -/
def getBaseType : GoType → GoType
  | .TPtr (.TStruct n) => .TStruct n
  | t => t

/-- Go `Type.Name()`: the declared name for named types, empty for the
composite (slice, map, pointer) and built-in unnamed shapes used here.
In the repository only named struct types reach `getProfileKey`. -/
def goTypeName : GoType → String
  | .TStruct n => n
  | _ => ""

/-- Embedding of `getProfileKey` (part_002 lines 654-657). -/
def getProfileKey (srcType desType : GoType) : String :=
  goTypeName srcType ++ "_" ++ goTypeName desType

/-- Metadata computed by `getTypeMeta`: field name -> tag, and
(non-empty) tag -> field name, both Go maps. -/
structure TypeMeta where
  keysToTags : List (String × String)
  tagsToKeys : List (String × String)
  deriving Repr, DecidableEq

/-- Loop body of `getTypeMeta`: record name -> tag always, and
tag -> name when the tag is non-empty (Go map assignment overwrites). -/
def getTypeMetaStep (meta : TypeMeta) (f : String × String × GoType) : TypeMeta :=
  let meta₂ : TypeMeta :=
    { meta with keysToTags := insertA meta.keysToTags f.1 f.2.1 }
  if f.2.1 ≠ "" then
    { meta₂ with tagsToKeys := insertA meta₂.tagsToKeys f.2.1 f.1 }
  else meta₂

/-- Embedding of `getTypeMeta` (part_002 lines 593-614): fold over the
declared fields in declaration order. -/
def getTypeMeta (fields : List (String × String × GoType)) : TypeMeta :=
  fields.foldl getTypeMetaStep ⟨[], []⟩

/-- Modelled from the spec: abstraction of the external dependency
`strcase.ToCamel` (not part of this repository), which per §4.2 converts
snake/lower case to upper-camel case: drop underscores and capitalize
the first letter of each underscore separated segment. -/
def toCamelAux : List Char → Bool → List Char
  | [], _ => []
  | c :: rest, atStart =>
      if c = '_' then toCamelAux rest true
      else (if atStart then c.toUpper else c) :: toCamelAux rest false

/-- Modelled from the spec: wrapper running `toCamelAux` on the
characters of the string, starting a segment. -/
def toCamel (s : String) : String :=
  String.mk (toCamelAux s.data true)

/-- Embedding of `getDestinationKey` (part_002 lines 629-652): the five
match rules, tried in order on the destination metadata. -/
def getDestinationKey (srcKey srcTag : String) (destMeta : TypeMeta) :
    Option String :=
  if (lookupA destMeta.keysToTags (toCamel srcKey)).isSome then
    some (toCamel srcKey)
  else if (lookupA destMeta.keysToTags srcKey).isSome then
    some srcKey
  else
    match lookupA destMeta.tagsToKeys srcKey with
    | some destKey => some destKey
    | none =>
        if (lookupA destMeta.keysToTags srcTag).isSome then
          some srcTag
        else
          match lookupA destMeta.tagsToKeys srcTag with
          | some destKey => some destKey
          | none => none

/-- Embedding of `createProfile` (part_002 lines 571-591).  The Go code
ranges over the map `srcMeta.keysToTags`; the unspecified iteration
order becomes the explicit `order` argument (a list of source field
names, one visit per key of the map). -/
def createProfile (order : List String)
    (srcFields : List (String × String × GoType))
    (destFields : List (String × String × GoType))
    (srcMethods : List String) : List (String × String) :=
  let srcMeta := getTypeMeta srcFields
  let destMeta := getTypeMeta destFields
  (order.filterMap (fun srcKey =>
    match lookupA srcMeta.keysToTags srcKey with
    | none => none
    | some srcTag =>
        match getDestinationKey srcKey srcTag destMeta with
        | some destKey => some (srcKey, destKey)
        | none => none))
  ++ srcMethods.filterMap (fun method =>
    if (lookupA destMeta.keysToTags method).isSome then some (method, method)
    else none)

/-- Shape lookup for a named struct type; non-struct types expose no
fields or methods. -/
def structInfoOf (env : TypeEnv) : GoType → StructInfo
  | .TStruct n => (lookupA env n).getD ⟨[], []⟩
  | _ => ⟨[], []⟩

/-- Embedding of `configProfile` (part_002 lines 556-569): kind checks
returning `ErrInvalidStructType`, then build and cache the profile. -/
def configProfile (env : TypeEnv) (order : List String)
    (srcType desType : GoType) (st : RegState) :
    Except MapperError Unit × RegState :=
  match srcType, desType with
  | .TStruct sn, .TStruct dn =>
      let si := structInfoOf env (.TStruct sn)
      let di := structInfoOf env (.TStruct dn)
      let profile := createProfile order si.fields di.fields si.methods
      (Except.ok (),
        { st with
            profiles :=
              insertA st.profiles (getProfileKey (.TStruct sn) (.TStruct dn))
                profile })
  | .TStruct _, _ => (Except.error .invalidStructType, st)
  | _, _ => (Except.error .invalidStructType, st)

/-- Embedding of `CreateMap` (part_002 lines 504-540): kind validation,
duplicate detection on both the pointer and the bare key, registration
of both keys, then profile construction on the base types. -/
def goCreateMap (env : TypeEnv) (order : List String)
    (srcType desType : GoType) (st : RegState) :
    Except MapperError Unit × RegState :=
  if ¬ (isStructOrPointerToStruct srcType ∧ isStructOrPointerToStruct desType) then
    (Except.error .unsupportedMap, st)
  else
    let pointerStructTypeKey : GoType × GoType := (.TPtr srcType, .TPtr desType)
    let nonePointerStructTypeKey : GoType × GoType := (srcType, desType)
    if (lookupA st.maps pointerStructTypeKey).isSome then
      (Except.error .mapAlreadyExists, st)
    else if (lookupA st.maps nonePointerStructTypeKey).isSome then
      (Except.error .mapAlreadyExists, st)
    else
      let st₁ : RegState :=
        { st with
            maps :=
              insertA (insertA st.maps pointerStructTypeKey .generated)
                nonePointerStructTypeKey .generated }
      match configProfile env order (getBaseType srcType) (getBaseType desType) st₁ with
      | (Except.error e, st₂) => (Except.error e, st₂)
      | (Except.ok (), st₂) => (Except.ok (), st₂)

/-- Embedding of `CreateCustomMap` (part_002 lines 795-818): nil check,
kind validation, duplicate detection, then the registration — which, as
written in the source, stores the empty struct value `struct{}{}`
(`.marker`) rather than the supplied function. -/
def goCreateCustomMap (fnIsNil : Bool) (srcType desType : GoType)
    (st : RegState) : Except MapperError Unit × RegState :=
  if fnIsNil then (Except.error .nilFunction, st)
  else if ¬ (isStructOrPointerToStruct srcType ∧ isStructOrPointerToStruct desType) then
    (Except.error .unsupportedMap, st)
  else if (lookupA st.maps (srcType, desType)).isSome then
    (Except.error .mapAlreadyExists, st)
  else
    (Except.ok (), { st with maps := insertA st.maps (srcType, desType) .marker })

example :
    goCreateMap [] [] .TInt .TInt ⟨[], []⟩ =
      (Except.error .unsupportedMap, ⟨[], []⟩) := rfl

example :
    (goCreateMap [("S", ⟨[("Name", "", .TStr)], []⟩), ("D", ⟨[("Name", "", .TStr)], []⟩)]
      ["Name"] (.TStruct "S") (.TStruct "D") ⟨[], []⟩).1 = Except.ok () := rfl

/-- Struct kind test used to state claims about bare struct pairs. -/
def GoType.isStructKind : GoType → Bool
  | .TStruct _ => true
  | _ => false

/-- Specification-side selection rule for C4, following §4.2 word for
word as a declaration-order search over the destination field list:
(1) field named the upper-camel conversion of S, (2) field named S,
(3) field whose alias tag equals S, (4) field named T with T non-empty,
(5) field whose alias tag equals T; otherwise no correspondence. -/
def destSelectSpec (srcKey srcTag : String)
    (destFields : List (String × String × GoType)) : Option String :=
  if destFields.any (fun f => f.1 == toCamel srcKey) then some (toCamel srcKey)
  else if destFields.any (fun f => f.1 == srcKey) then some srcKey
  else
    match (destFields.find? (fun f => f.2.1 == srcKey && f.2.1 != "")).map
        (fun f => f.1) with
    | some destKey => some destKey
    | none =>
        if srcTag != "" && destFields.any (fun f => f.1 == srcTag) then
          some srcTag
        else
          match (destFields.find? (fun f => f.2.1 == srcTag && f.2.1 != "")).map
              (fun f => f.1) with
          | some destKey => some destKey
          | none => none

/-!
Store-based embedding of the value-transfer engine (the refactored
`processValues` family, part_002 lines 659-793).  Go values live in an
addressed store of cells; a `reflect.Value` is an `Option (Addr × GoType)`
(`none` is the invalid value).  Struct, slice and map cells reference
their components by address, so aliasing and in-place writes are
observable.  A result of `none` models a Go panic (or fuel exhaustion of
the shallow embedding; the source recursion has no depth bound).
-/

/-- Heap cell address. -/
abbrev Addr := Nat

/-- Runtime Go value forms used by the transfer engine. -/
inductive GoVal where
  | VInt (n : Int)
  | VStr (s : String)
  | VBool (b : Bool)
  | VStruct (fields : List (String × Addr))
  | VSlice (elems : List Addr)
  | VMap (entries : List (Addr × Addr))
  | VPtr (a : Option Addr)
  | VIface (v : Option (Addr × GoType))
  deriving Repr, DecidableEq

/-- Store of heap cells, addressed by position. -/
abbrev Store := List GoVal

/-- Read of a cell; out-of-range reads are absent values. -/
def readCell (st : Store) (a : Addr) : Option GoVal := st[a]?

/-- Write of a cell (out-of-range writes are dropped, as they cannot
occur in a run started from a well-formed store). -/
def writeCell (st : Store) (a : Addr) (v : GoVal) : Store := st.set a v

/-- Structural kinds, as `reflect.Kind` restricted to the shapes the
engine dispatches on. -/
inductive GoKind where
  | kInt
  | kStr
  | kBool
  | kStruct
  | kSlice
  | kMap
  | kPtr
  | kIface
  | kInvalid
  deriving Repr, DecidableEq

/-- Kind of a type, as `reflect.Type.Kind()`. -/
def GoType.kind : GoType → GoKind
  | .TInt => .kInt
  | .TStr => .kStr
  | .TBool => .kBool
  | .TStruct _ => .kStruct
  | .TSlice _ => .kSlice
  | .TMap _ _ => .kMap
  | .TPtr _ => .kPtr
  | .TIface => .kIface

/-- Kind of a `reflect.Value`; the invalid value has kind Invalid. -/
def kindOfR : Option (Addr × GoType) → GoKind
  | none => .kInvalid
  | some (_, t) => t.kind

/-- Embedding of the `src.Kind() == reflect.Interface` unwrap at the top
of `processValues`: a dynamic value is replaced by its payload, a nil
dynamic value by the invalid value. -/
def unwrapIface (st : Store) : Option (Addr × GoType) → Option (Addr × GoType)
  | some (a, GoType.TIface) =>
      match readCell st a with
      | some (.VIface (some rv)) => some rv
      | _ => none
  | rv => rv

/-- Go field exportedness: the first rune of the name is upper case. -/
def isExported (s : String) : Bool :=
  match s.data with
  | [] => false
  | c :: _ => c.isUpper

/-- Run environment of the engine: the struct catalog, the `profiles`
cache, the `MapUnexportedFields` configuration, plus two oracles for
user code the engine may call: `methodEval` models the zero-argument
accessor methods invoked through
`GetFieldValueFromMethodAndReflectValue` (returning an updated store and
a result value, or `none` when the method does not exist), and `funcs`
resolves the symbolic identifier of a custom transform installed in
the `maps` registry. -/
structure MapperEnv where
  types : TypeEnv
  profiles : List (String × List (String × String))
  mapUnexportedFields : Bool
  methodEval : String → String → Store → Addr → Option (Store × (Addr × GoType))
  funcs : String → Store → Addr → Option (Store × (Addr × GoType))

/-- Embedding of `reflect.Value.FieldByName` for the engine: outer
`none` is the panic on a non-struct receiver (or an ill-formed store),
inner `none` is the invalid value Go returns for a missing field. -/
def fieldByNameD (env : MapperEnv) (st : Store) (rv : Addr × GoType)
    (fname : String) : Option (Option (Addr × GoType)) :=
  match rv.2 with
  | .TStruct n =>
      match (structInfoOf env.types (.TStruct n)).fields.find?
          (fun f => f.1 == fname) with
      | none => some none
      | some f =>
          match readCell st rv.1 with
          | some (.VStruct fs) =>
              match lookupA fs fname with
              | some fa => some (some (fa, f.2.2))
              | none => none
          | _ => none
  | _ => none

/-- Embedding of the `default: dest.Set(src)` branch of the refactored
`processValues` dispatch: only scalar kinds reach it there, and
`reflect.Value.Set` panics on an invalid operand or a type mismatch. -/
def goSet (st : Store) (src dest : Option (Addr × GoType)) : Option Store :=
  match src, dest with
  | some (sa, sty), some (da, dty) =>
      if sty = dty then
        match readCell st sa with
        | some (.VInt n) => some (writeCell st da (.VInt n))
        | some (.VStr s) => some (writeCell st da (.VStr s))
        | some (.VBool b) => some (writeCell st da (.VBool b))
        | _ => none
      else none
  | _, _ => none

mutual

/-- Deep value equality of two cells, as the Go runtime compares map
keys: scalars by value, pointers by identity, structs field by field;
slices and maps are not comparable (runtime panic, `none`). -/
def valEq (fuel : Nat) (st : Store) (a b : Addr) : Option Bool :=
  match fuel with
  | 0 => none
  | fuel + 1 =>
      match readCell st a, readCell st b with
      | some (.VInt x), some (.VInt y) => some (x == y)
      | some (.VStr x), some (.VStr y) => some (x == y)
      | some (.VBool x), some (.VBool y) => some (x == y)
      | some (.VPtr x), some (.VPtr y) => some (x == y)
      | some (.VStruct fs), some (.VStruct gs) => valEqFields fuel st fs gs
      | _, _ => none

/-- Field-wise equality for struct cells. -/
def valEqFields (fuel : Nat) (st : Store) :
    List (String × Addr) → List (String × Addr) → Option Bool
  | [], [] => some true
  | (n₁, a₁) :: r₁, (n₂, a₂) :: r₂ =>
      match fuel with
      | 0 => none
      | fuel + 1 =>
          if n₁ = n₂ then
            match valEq fuel st a₁ a₂ with
            | none => none
            | some false => some false
            | some true => valEqFields fuel st r₁ r₂
          else none
  | _, _ => none

end

/-- Helper of `SetMapIndex`: update the entry whose key cell is equal in
value to the new key cell, else append the new entry. -/
def mapAssocSet (fuel : Nat) (st : Store) (dk dv : Addr) :
    List (Addr × Addr) → Option (List (Addr × Addr))
  | [] => some [(dk, dv)]
  | (k, v) :: rest =>
      match valEq fuel st k dk with
      | none => none
      | some true => some ((k, dv) :: rest)
      | some false =>
          match mapAssocSet fuel st dk dv rest with
          | none => none
          | some r => some ((k, v) :: r)

/-- Embedding of `dest.SetMapIndex(destKey, destValue)` on a map cell. -/
def setMapIndex (fuel : Nat) (st : Store) (da dk dv : Addr) : Option Store :=
  match readCell st da with
  | some (.VMap es) =>
      match mapAssocSet fuel st dk dv es with
      | none => none
      | some es₂ => some (writeCell st da (.VMap es₂))
  | _ => none

mutual

/-- Embedding of the refactored `processValues` (part_002 lines
716-736): unwrap a dynamic source, then dispatch on the source kind —
struct, slice, map and pointer recurse, everything else (scalars, and
the invalid value, which makes `Set` panic) takes the direct
`dest.Set(src)` branch.  The function itself never produces a Go error
value; `none` is a panic or exhausted fuel. -/
def processValues (env : MapperEnv) (fuel : Nat)
    (src dest : Option (Addr × GoType)) (st : Store) : Option Store :=
  match fuel with
  | 0 => none
  | fuel + 1 =>
      match kindOfR (unwrapIface st src) with
      | .kStruct => mapStructs env fuel (unwrapIface st src) dest st
      | .kSlice => mapSlices env fuel (unwrapIface st src) dest st
      | .kMap => mapMaps env fuel (unwrapIface st src) dest st
      | .kPtr => mapPointers env fuel (unwrapIface st src) dest st
      | _ => goSet st (unwrapIface st src) dest

/-- Embedding of the refactored `mapStructs` (part_002 lines 738-750):
look up the cached profile by the two type names; absent profile is a
silent return; otherwise process each correspondence in order.
`Type()` of an invalid operand panics. -/
def mapStructs (env : MapperEnv) (fuel : Nat)
    (src dest : Option (Addr × GoType)) (st : Store) : Option Store :=
  match fuel with
  | 0 => none
  | fuel + 1 =>
      match src, dest with
      | some srcv, some destv =>
          match lookupA env.profiles (getProfileKey srcv.2 destv.2) with
          | none => some st
          | some profile => mapStructsGo env fuel profile srcv destv st
      | _, _ => none

/-- Loop of `mapStructs` over the profile correspondences: retrieve the
source field value, locate the destination field, recurse. -/
def mapStructsGo (env : MapperEnv) (fuel : Nat)
    (profile : List (String × String)) (srcv destv : Addr × GoType)
    (st : Store) : Option Store :=
  match fuel with
  | 0 => none
  | fuel + 1 =>
      match profile with
      | [] => some st
      | (srcName, destName) :: rest =>
          match retrieveSourceFieldValue env fuel srcv srcName st with
          | none => none
          | some (st₁, sourceField) =>
              match fieldByNameD env st₁ destv destName with
              | none => none
              | some destinationField =>
                  match processValues env fuel sourceField destinationField st₁ with
                  | none => none
                  | some st₂ => mapStructsGo env fuel rest srcv destv st₂

/-- Embedding of `retrieveSourceFieldValue` (part_002 lines 752-762): a
present field is returned directly when it is interfaceable or when
unexported mapping is off (the `GetFieldValue` shim otherwise returns an
unsafe readable view of the same cell); a missing field falls back to
invoking the camel-cased accessor method. -/
def retrieveSourceFieldValue (env : MapperEnv) (fuel : Nat)
    (srcv : Addr × GoType) (fieldName : String) (st : Store) :
    Option (Store × Option (Addr × GoType)) :=
  match fuel with
  | 0 => none
  | _fuel + 1 =>
      match fieldByNameD env st srcv fieldName with
      | none => none
      | some (some field) =>
          if isExported fieldName || !env.mapUnexportedFields then
            some (st, some field)
          else
            some (st, some field)
      | some none =>
          match env.methodEval (goTypeName srcv.2) (toCamel fieldName) st srcv.1 with
          | none => some (st, none)
          | some (st₂, rv) => some (st₂, some rv)

/-- Embedding of the refactored `mapSlices` (part_002 lines 764-770):
`dest.Set(reflect.MakeSlice(dest.Type(), len, cap))` — a fresh zero
slice of the source length (`MakeSlice` panics on a non-slice
destination type) — then element-wise recursion. -/
def mapSlices (env : MapperEnv) (fuel : Nat)
    (src dest : Option (Addr × GoType)) (st : Store) : Option Store :=
  match fuel with
  | 0 => none
  | fuel + 1 =>
      match src, dest with
      | some (sa, .TSlice sElemTy), some (da, .TSlice dElemTy) =>
          match readCell st sa with
          | some (.VSlice elems) =>
              match allocZeroMany env fuel dElemTy elems.length st with
              | none => none
              | some (addrs, st₁) =>
                  mapSlicesGo env fuel sElemTy dElemTy (elems.zip addrs)
                    (writeCell st₁ da (.VSlice addrs))
          | _ => none
      | _, _ => none

/-- Loop of `mapSlices` over paired source and destination elements. -/
def mapSlicesGo (env : MapperEnv) (fuel : Nat) (sElemTy dElemTy : GoType)
    (pairs : List (Addr × Addr)) (st : Store) : Option Store :=
  match fuel with
  | 0 => none
  | fuel + 1 =>
      match pairs with
      | [] => some st
      | (se, de) :: rest =>
          match processValues env fuel (some (se, sElemTy)) (some (de, dElemTy)) st with
          | none => none
          | some st₁ => mapSlicesGo env fuel sElemTy dElemTy rest st₁

/-- Embedding of the refactored `mapMaps` (part_002 lines 772-783):
`dest.Set(reflect.MakeMapWithSize(dest.Type(), src.Len()))` — a fresh
empty map (`MakeMapWithSize` panics on a non-map destination type) —
then iterate the source entries: allocate fresh zero key and value
slots, recurse into both, insert with `SetMapIndex`. -/
def mapMaps (env : MapperEnv) (fuel : Nat)
    (src dest : Option (Addr × GoType)) (st : Store) : Option Store :=
  match fuel with
  | 0 => none
  | fuel + 1 =>
      match src, dest with
      | some (sa, .TMap sKeyTy sValTy), some (da, .TMap dKeyTy dValTy) =>
          match readCell st sa with
          | some (.VMap entries) =>
              mapMapsGo env fuel sKeyTy sValTy dKeyTy dValTy entries da
                (writeCell st da (.VMap []))
          | _ => none
      | _, _ => none

/-- Loop of `mapMaps` over the source entries, in iteration order. -/
def mapMapsGo (env : MapperEnv) (fuel : Nat) (sKeyTy sValTy dKeyTy dValTy : GoType)
    (entries : List (Addr × Addr)) (da : Addr) (st : Store) : Option Store :=
  match fuel with
  | 0 => none
  | fuel + 1 =>
      match entries with
      | [] => some st
      | (ka, va) :: rest =>
          match allocZero env fuel dKeyTy st with
          | none => none
          | some (dk, st₁) =>
              match allocZero env fuel dValTy st₁ with
              | none => none
              | some (dv, st₂) =>
                  match processValues env fuel (some (ka, sKeyTy)) (some (dk, dKeyTy)) st₂ with
                  | none => none
                  | some st₃ =>
                      match processValues env fuel (some (va, sValTy)) (some (dv, dValTy)) st₃ with
                      | none => none
                      | some st₄ =>
                          match setMapIndex fuel st₄ da dk dv with
                          | none => none
                          | some st₅ =>
                              mapMapsGo env fuel sKeyTy sValTy dKeyTy dValTy rest da st₅

/-- Embedding of the refactored `mapPointers` (part_002 lines 785-793):
a nil source pointer zeroes the destination
(`dest.Set(reflect.Zero(dest.Type()))`); a populated one allocates a new
destination target (`dest.Set(reflect.New(dest.Type().Elem()))`, which
panics when the destination is not a pointer) and recurses into it. -/
def mapPointers (env : MapperEnv) (fuel : Nat)
    (src dest : Option (Addr × GoType)) (st : Store) : Option Store :=
  match fuel with
  | 0 => none
  | fuel + 1 =>
      match src, dest with
      | some (sa, .TPtr sElemTy), some (da, dty) =>
          match readCell st sa with
          | some (.VPtr none) => writeZeroVal env fuel dty da st
          | some (.VPtr (some pa)) =>
              match dty with
              | .TPtr dElemTy =>
                  match allocZero env fuel dElemTy st with
                  | none => none
                  | some (na, st₁) =>
                      processValues env fuel (some (pa, sElemTy)) (some (na, dElemTy))
                        (writeCell st₁ da (.VPtr (some na)))
              | _ => none
          | _ => none
      | _, _ => none

/-- Allocation of a fresh zero value of a type (`reflect.New(t).Elem()`
and the zero cells behind `MakeSlice`): the new cell is appended at the
end of the store and references only cells allocated with it. -/
def allocZero (env : MapperEnv) (fuel : Nat) (ty : GoType) (st : Store) :
    Option (Addr × Store) :=
  match fuel with
  | 0 => none
  | fuel + 1 =>
      match ty with
      | .TInt => some (st.length, st ++ [.VInt 0])
      | .TStr => some (st.length, st ++ [.VStr ""])
      | .TBool => some (st.length, st ++ [.VBool false])
      | .TSlice _ => some (st.length, st ++ [.VSlice []])
      | .TMap _ _ => some (st.length, st ++ [.VMap []])
      | .TPtr _ => some (st.length, st ++ [.VPtr none])
      | .TIface => some (st.length, st ++ [.VIface none])
      | .TStruct n =>
          match allocZeroFields env fuel (structInfoOf env.types (.TStruct n)).fields st with
          | none => none
          | some (fs, st₁) => some (st₁.length, st₁ ++ [.VStruct fs])

/-- Allocation of the zero cells of the declared fields of a struct. -/
def allocZeroFields (env : MapperEnv) (fuel : Nat)
    (fields : List (String × String × GoType)) (st : Store) :
    Option (List (String × Addr) × Store) :=
  match fuel with
  | 0 => none
  | fuel + 1 =>
      match fields with
      | [] => some ([], st)
      | f :: rest =>
          match allocZero env fuel f.2.2 st with
          | none => none
          | some (a, st₁) =>
              match allocZeroFields env fuel rest st₁ with
              | none => none
              | some (fs, st₂) => some ((f.1, a) :: fs, st₂)

/-- Allocation of `n` fresh zero cells of a type. -/
def allocZeroMany (env : MapperEnv) (fuel : Nat) (ty : GoType) (n : Nat)
    (st : Store) : Option (List Addr × Store) :=
  match fuel with
  | 0 => none
  | fuel + 1 =>
      match n with
      | 0 => some ([], st)
      | n + 1 =>
          match allocZero env fuel ty st with
          | none => none
          | some (a, st₁) =>
              match allocZeroMany env fuel ty n st₁ with
              | none => none
              | some (rest, st₂) => some (a :: rest, st₂)

/-- Write of the zero value of a type over an existing cell tree
(`dest.Set(reflect.Zero(dest.Type()))`). -/
def writeZeroVal (env : MapperEnv) (fuel : Nat) (ty : GoType) (a : Addr)
    (st : Store) : Option Store :=
  match fuel with
  | 0 => none
  | fuel + 1 =>
      match ty with
      | .TInt => some (writeCell st a (.VInt 0))
      | .TStr => some (writeCell st a (.VStr ""))
      | .TBool => some (writeCell st a (.VBool false))
      | .TSlice _ => some (writeCell st a (.VSlice []))
      | .TMap _ _ => some (writeCell st a (.VMap []))
      | .TPtr _ => some (writeCell st a (.VPtr none))
      | .TIface => some (writeCell st a (.VIface none))
      | .TStruct n =>
          match readCell st a with
          | some (.VStruct fs) =>
              writeZeroFields env fuel (structInfoOf env.types (.TStruct n)).fields fs st
          | _ => none

/-- Zero write over the field cells of a struct value. -/
def writeZeroFields (env : MapperEnv) (fuel : Nat)
    (fields : List (String × String × GoType)) (fs : List (String × Addr))
    (st : Store) : Option Store :=
  match fuel with
  | 0 => none
  | fuel + 1 =>
      match fields with
      | [] => some st
      | f :: rest =>
          match lookupA fs f.1 with
          | none => none
          | some fa =>
              match writeZeroVal env fuel f.2.2 fa st with
              | none => none
              | some st₁ => writeZeroFields env fuel rest fs st₁

end

/-- Embedding of `getElementType` (part_002 lines 688-697): unwrap one
level of sequence (or pointer to sequence) and report whether one was
unwrapped.  The repository uses slices for sequences; the Go `Array`
kind plays the same role and is not modelled separately. -/
def getElementType : GoType → GoType × Bool
  | .TSlice e => (e, true)
  | .TPtr (.TSlice e) => (e, true)
  | t => (t, false)

/-- Embedding of `getMappingFunction` (part_002 lines 699-707). -/
def getMappingFunction (mapsReg : List ((GoType × GoType) × MapEntry))
    (srcType desType : GoType) : Except MapperError MapEntry :=
  match lookupA mapsReg (srcType, desType) with
  | none => Except.error .mapNotExist
  | some fn => Except.ok fn

/-- Loop of `mapArray`: apply the custom transform to each source
element (via the `funcs` oracle), collecting the result addresses. -/
def mapArrayGo (env : MapperEnv) (fid : String) (elems : List Addr)
    (acc : List Addr) (desRef : Addr) (st : Store) : Option Store :=
  match elems with
  | [] => some (writeCell st desRef (.VSlice acc.reverse))
  | e :: rest =>
      match env.funcs fid st e with
      | none => none
      | some (st₁, rv) => mapArrayGo env fid rest (rv.1 :: acc) desRef st₁

/-- Embedding of `mapArray` (part_002 lines 709-714):
`linq.From(src).Select(fn).ToSlice(des)` — element-wise application of
the transform, materialized as a fresh slice assigned to the
destination; `linq` panics unless the source iterates and the
destination is a slice pointer. -/
def mapArray (env : MapperEnv) (fid : String) (srcRef : Addr)
    (srcTy : GoType) (desRef : Addr) (desTy : GoType) (st : Store) :
    Option Store :=
  match srcTy, desTy with
  | .TSlice _, .TSlice _ =>
      match readCell st srcRef with
      | some (.VSlice elems) => mapArrayGo env fid elems [] desRef st
      | _ => none
  | _, _ => none

/-- Embedding of the refactored `Map` (part_002 lines 659-686): allocate
the zero destination (`var des TDes`), resolve element types, look up
the registry entry.  A missing entry is `ErrMapNotExist`.  A non-nil
entry that is the `struct{}{}` marker stored by `CreateCustomMap` makes
`reflect.ValueOf(fn).Call` panic (`none`).  A function entry is applied
directly for the scalar shape (returning exactly its result), or
element-wise via `mapArray` for the sequence shape — after which control
falls through to the generic `processValues` pass over the same
destination, exactly as in the source.  A nil entry (registered by
`CreateMap`) goes straight to `processValues`. -/
def goMap (env : MapperEnv) (fuel : Nat)
    (mapsReg : List ((GoType × GoType) × MapEntry)) (srcTy desTy : GoType)
    (srcRef : Addr) (st : Store) : Option (Except MapperError (Addr × Store)) :=
  match allocZero env fuel desTy st with
  | none => none
  | some (desRef, st₀) =>
      let se := getElementType srcTy
      let de := getElementType desTy
      match getMappingFunction mapsReg se.1 de.1 with
      | Except.error e => some (Except.error e)
      | Except.ok fn =>
          match fn with
          | .marker => none
          | .custom fid =>
              if de.2 && se.2 then
                match mapArray env fid srcRef srcTy desRef desTy st₀ with
                | none => none
                | some st₁ =>
                    match processValues env fuel (some (srcRef, srcTy))
                        (some (desRef, desTy)) st₁ with
                    | none => none
                    | some st₂ => some (Except.ok (desRef, st₂))
              else
                match env.funcs fid st₀ srcRef with
                | none => none
                | some (st₁, rv) => some (Except.ok (rv.1, st₁))
          | .generated =>
              match processValues env fuel (some (srcRef, srcTy))
                  (some (desRef, desTy)) st₀ with
              | none => none
              | some st₂ => some (Except.ok (desRef, st₂))

/-- Concrete run environment for the custom-transform claims: the
`Source` and `Destination` struct types of the package tests, no cached
profiles (CreateCustomMap never builds one), default configuration. -/
def envCustom : MapperEnv where
  types := [("Source", ⟨[("Name", "", .TStr)], []⟩),
            ("Destination", ⟨[("Name", "", .TStr)], []⟩)]
  profiles := []
  mapUnexportedFields := false
  methodEval := fun _ _ _ _ => none
  funcs := fun _ _ _ => none

/-- Concrete run environment for the sequence claim: same types, and a
transform `copyName` materializing `Destination{Name: src.Name}`. -/
def envSeq : MapperEnv where
  types := [("Source", ⟨[("Name", "", .TStr)], []⟩),
            ("Destination", ⟨[("Name", "", .TStr)], []⟩)]
  profiles := []
  mapUnexportedFields := false
  methodEval := fun _ _ _ _ => none
  funcs := fun fid st a =>
    if fid = "copyName" then
      match readCell st a with
      | some (.VStruct fs) =>
          match lookupA fs "Name" with
          | some na =>
              match readCell st na with
              | some (.VStr s) =>
                  some (st ++ [.VStr s, .VStruct [("Name", st.length)]],
                    (st.length + 1, .TStruct "Destination"))
              | _ => none
          | _ => none
      | _ => none
    else none

/-- Concrete run environment for the map-entry-count claim: two struct
key types with an int field and no cached profile between them. -/
def envAssoc : MapperEnv where
  types := [("Ks", ⟨[("X", "", .TInt)], []⟩), ("Kd", ⟨[("X", "", .TInt)], []⟩)]
  profiles := []
  mapUnexportedFields := false
  methodEval := fun _ _ _ _ => none
  funcs := fun _ _ _ => none

/-!
Frame reasoning: the engine only ever writes to destination cells, which
in any `Map` run are allocated at or above a watermark; every cell below
the watermark — in particular the whole source object graph — is left
untouched.
-/

/-- Addresses a cell references directly. -/
def cellRefs : GoVal → List Addr
  | .VStruct fs => fs.map (fun p => p.2)
  | .VSlice es => es
  | .VMap es => es.foldr (fun e acc => e.1 :: e.2 :: acc) []
  | .VPtr (some a) => [a]
  | .VIface (some (a, _)) => [a]
  | _ => []

/-- Every cell at or above the watermark references only cells at or
above the watermark. -/
def goodAbove (wm : Nat) (st : Store) : Prop :=
  ∀ a v, wm ≤ a → readCell st a = some v → ∀ b ∈ cellRefs v, wm ≤ b

/-- The two stores agree on every cell below the watermark. -/
def agreesBelow (wm : Nat) (st st' : Store) : Prop :=
  ∀ a, a < wm → readCell st' a = readCell st a

/-- Post-condition of every engine step at watermark `wm`. -/
def FrameOut (wm : Nat) (st st' : Store) : Prop :=
  agreesBelow wm st st' ∧ st.length ≤ st'.length ∧ goodAbove wm st'

/-- A destination operand lies at or above the watermark (the invalid
destination trivially does). -/
def destOK (wm : Nat) : Option (Addr × GoType) → Prop
  | none => True
  | some (a, _) => wm ≤ a

/-- The second store extends the first with self-contained fresh cells:
old cells keep their content, and every new cell references only new
cells. -/
def ExtendsFresh (st st' : Store) : Prop :=
  (∀ b, b < st.length → readCell st' b = readCell st b) ∧
  st.length ≤ st'.length ∧
  (∀ c v, st.length ≤ c → readCell st' c = some v →
    ∀ b ∈ cellRefs v, st.length ≤ b)

/-- Obligation on the user-code oracles (custom transforms and accessor
methods): they may allocate, but never disturb existing cells, their
fresh cells are self-contained, and their result is freshly
materialized, as Go value returns are. -/
def OracleFrame (f : Store → Addr → Option (Store × (Addr × GoType))) : Prop :=
  ∀ st a st' rv, f st a = some (st', rv) →
    ExtendsFresh st st' ∧ st.length ≤ rv.1 ∧ rv.1 < st'.length

/-- Both oracles of an environment respect the frame obligation. -/
def EnvFrame (env : MapperEnv) : Prop :=
  (∀ tn mn, OracleFrame (env.methodEval tn mn)) ∧
  ∀ fid, OracleFrame (env.funcs fid)

/-- Concrete run environment for the generated-profile path: Source and
Destination with the cached profile `[("Name", "Name")]`, oracles
absent. -/
def envGen : MapperEnv where
  types := [("Source", ⟨[("Name", "", .TStr)], []⟩),
            ("Destination", ⟨[("Name", "", .TStr)], []⟩)]
  profiles := [("Source_Destination", [("Name", "Name")])]
  mapUnexportedFields := false
  methodEval := fun _ _ _ _ => none
  funcs := fun _ _ _ => none

/-- Concrete run environment for the kind-mismatch run: `Source` has an
int field `X`, `Destination` a string field `X`; the cached profile is
exactly what `CreateMap` builds for the pair (field names match, so the
correspondence `("X", "X")` is recorded regardless of the field types). -/
def envMismatch : MapperEnv where
  types := [("Source", ⟨[("X", "", .TInt)], []⟩),
            ("Destination", ⟨[("X", "", .TStr)], []⟩)]
  profiles := [("Source_Destination", [("X", "X")])]
  mapUnexportedFields := false
  methodEval := fun _ _ _ _ => none
  funcs := fun _ _ _ => none

namespace AList

theorem lookupA_insertA_self {α β : Type} [DecidableEq α]
    (l : List (α × β)) (k : α) (v : β) : lookupA (insertA l k v) k = some v := by
  induction l with
  | nil => simp [insertA, lookupA]
  | cons hd tl ih =>
      obtain ⟨k₀, v₀⟩ := hd
      by_cases h : k₀ = k
      · simp [insertA, lookupA, h]
      · simp [insertA, lookupA, h, ih]

theorem lookupA_insertA_ne {α β : Type} [DecidableEq α]
    (l : List (α × β)) (k k₂ : α) (v : β) (h : k ≠ k₂) :
    lookupA (insertA l k v) k₂ = lookupA l k₂ := by
  induction l with
  | nil => simp [insertA, lookupA, h]
  | cons hd tl ih =>
      obtain ⟨k₀, v₀⟩ := hd
      by_cases h₀ : k₀ = k
      · subst h₀; simp [insertA, lookupA, h]
      · simp [insertA, lookupA, h₀, ih]

end AList

/-- Helper: `configProfile` only touches the profile cache, never the
`maps` registry. -/
theorem configProfile_snd_maps (env : TypeEnv) (order : List String)
    (a b : GoType) (st : RegState) (res : Except MapperError Unit)
    (st₂ : RegState) (h : configProfile env order a b st = (res, st₂)) :
    st₂.maps = st.maps := by
  unfold configProfile at h
  cases a <;> cases b <;> simp_all <;> rw [← h.2]

/-- Helper: a successful `CreateMap` run registers exactly the pointer
key and the bare key on top of the prior registry. -/
theorem goCreateMap_ok_maps (env : TypeEnv) (order : List String)
    (S D : GoType) (st st' : RegState)
    (h : goCreateMap env order S D st = (Except.ok (), st')) :
    st'.maps =
      insertA (insertA st.maps (GoType.TPtr S, GoType.TPtr D) .generated)
        (S, D) .generated := by
  unfold goCreateMap at h
  by_cases hk : isStructOrPointerToStruct S ∧ isStructOrPointerToStruct D
  · simp only [hk, not_true_eq_false, if_false] at h
    by_cases h₁ : (lookupA st.maps (GoType.TPtr S, GoType.TPtr D)).isSome
    · simp [h₁] at h
    · simp only [h₁, if_false, Bool.false_eq_true] at h
      by_cases h₂ : (lookupA st.maps (S, D)).isSome
      · simp [h₂] at h
      · simp only [h₂, if_false, Bool.false_eq_true] at h
        rcases hc : configProfile env order (getBaseType S) (getBaseType D)
            { st with
                maps :=
                  insertA (insertA st.maps (GoType.TPtr S, GoType.TPtr D) .generated)
                    (S, D) .generated } with ⟨res, st₂⟩
        rw [hc] at h
        cases res with
        | error e => simp at h
        | ok u =>
            cases u
            simp at h
            subst h
            have hm := configProfile_snd_maps env order
              (getBaseType S) (getBaseType D) _ _ _ hc
            simpa using hm
  · simp [hk] at h

/-- C2: for every pair of types S, D where neither S nor D is a struct or
a pointer to a struct, `CreateMap` returns `ErrUnsupportedMap` and leaves
the registry state (both the `maps` registry and the `profiles` cache)
completely unchanged. -/
theorem createMap_unsupported_no_mutation (env : TypeEnv) (order : List String)
    (S D : GoType) (st : RegState)
    (hS : isStructOrPointerToStruct S = false)
    (hD : isStructOrPointerToStruct D = false) :
    goCreateMap env order S D st = (Except.error .unsupportedMap, st) := by
  unfold goCreateMap
  simp [hS, hD]

/-- Witness for C2 at the concrete non-struct pair (int, int). -/
theorem createMap_unsupported_no_mutation_witness :
    isStructOrPointerToStruct .TInt = false ∧
      goCreateMap [] [] .TInt .TInt ⟨[], []⟩ =
        (Except.error .unsupportedMap, ⟨[], []⟩) :=
  ⟨rfl, createMap_unsupported_no_mutation [] [] .TInt .TInt ⟨[], []⟩ rfl rfl⟩

/-- C3: once `CreateMap` has succeeded for a struct pair — registered in
either the bare form (S, D) or the reference form (*S, *D) — a second
call with the same pair in either form returns `ErrMapAlreadyExists` and
returns the post-first-call state untouched (same `maps` registry and
same `profiles` cache). -/
theorem createMap_duplicate_rejected (env : TypeEnv) (o₁ o₂ : List String)
    (sn dn : String) (st st' : RegState)
    (h₁ :
      goCreateMap env o₁ (.TStruct sn) (.TStruct dn) st = (Except.ok (), st') ∨
      goCreateMap env o₁ (.TPtr (.TStruct sn)) (.TPtr (.TStruct dn)) st =
        (Except.ok (), st')) :
    goCreateMap env o₂ (.TStruct sn) (.TStruct dn) st' =
      (Except.error .mapAlreadyExists, st') ∧
    goCreateMap env o₂ (.TPtr (.TStruct sn)) (.TPtr (.TStruct dn)) st' =
      (Except.error .mapAlreadyExists, st') := by
  rcases h₁ with h₁ | h₁
  · have hm := goCreateMap_ok_maps env o₁ _ _ st st' h₁
    constructor
    · unfold goCreateMap
      have hp : (lookupA st'.maps
          (GoType.TPtr (.TStruct sn), GoType.TPtr (.TStruct dn))).isSome := by
        rw [hm, lookupA_insertA_ne _ _ _ _ (by simp), lookupA_insertA_self]
        rfl
      simp [isStructOrPointerToStruct, hp]
    · unfold goCreateMap
      by_cases hpp : (lookupA st'.maps
          (GoType.TPtr (.TPtr (.TStruct sn)), GoType.TPtr (.TPtr (.TStruct dn)))).isSome
      · simp [isStructOrPointerToStruct, hpp]
      · have hp : (lookupA st'.maps
            (GoType.TPtr (.TStruct sn), GoType.TPtr (.TStruct dn))).isSome := by
          rw [hm, lookupA_insertA_ne _ _ _ _ (by simp), lookupA_insertA_self]
          rfl
        simp [isStructOrPointerToStruct, hpp, hp]
  · have hm := goCreateMap_ok_maps env o₁ _ _ st st' h₁
    constructor
    · unfold goCreateMap
      have hp : (lookupA st'.maps
          (GoType.TPtr (.TStruct sn), GoType.TPtr (.TStruct dn))).isSome := by
        rw [hm, lookupA_insertA_self]
        rfl
      simp [isStructOrPointerToStruct, hp]
    · unfold goCreateMap
      have hp : (lookupA st'.maps
          (GoType.TPtr (.TPtr (.TStruct sn)), GoType.TPtr (.TPtr (.TStruct dn)))).isSome := by
        rw [hm, lookupA_insertA_ne _ _ _ _ (by simp), lookupA_insertA_self]
        rfl
      simp [isStructOrPointerToStruct, hp]

/-- Witness for C3: register (S, S) concretely; the duplicate bare-form
call is rejected without mutation. -/
theorem createMap_duplicate_rejected_witness :
    goCreateMap [("S", ⟨[("Name", "", .TStr)], []⟩)] ["Name"]
        (.TStruct "S") (.TStruct "S") ⟨[], []⟩ =
      (Except.ok (),
        ⟨[((.TPtr (.TStruct "S"), .TPtr (.TStruct "S")), .generated),
          ((.TStruct "S", .TStruct "S"), .generated)],
         [("S_S", [("Name", "Name")])]⟩) ∧
    goCreateMap [("S", ⟨[("Name", "", .TStr)], []⟩)] ["Name"]
        (.TStruct "S") (.TStruct "S")
        ⟨[((.TPtr (.TStruct "S"), .TPtr (.TStruct "S")), .generated),
          ((.TStruct "S", .TStruct "S"), .generated)],
         [("S_S", [("Name", "Name")])]⟩ =
      (Except.error .mapAlreadyExists,
        ⟨[((.TPtr (.TStruct "S"), .TPtr (.TStruct "S")), .generated),
          ((.TStruct "S", .TStruct "S"), .generated)],
         [("S_S", [("Name", "Name")])]⟩) := by
  constructor
  · rfl
  · exact (createMap_duplicate_rejected
      [("S", ⟨[("Name", "", .TStr)], []⟩)] ["Name"] ["Name"] "S" "S"
      ⟨[], []⟩
      ⟨[((.TPtr (.TStruct "S"), .TPtr (.TStruct "S")), .generated),
        ((.TStruct "S", .TStruct "S"), .generated)],
       [("S_S", [("Name", "Name")])]⟩
      (Or.inl (by rfl))).1

/-- C5 counterexample: `createProfile` ranges over the Go map
`srcMeta.keysToTags`, whose iteration order is unspecified; two runs that
visit the same two keys in the two possible orders (both legitimate Go
map iterations) produce different correspondence lists, and the second
one is not in declaration order. -/
theorem createProfile_not_order_independent :
    createProfile ["A", "B"]
        [("A", "", .TStr), ("B", "", .TStr)]
        [("A", "", .TStr), ("B", "", .TStr)] [] ≠
      createProfile ["B", "A"]
        [("A", "", .TStr), ("B", "", .TStr)]
        [("A", "", .TStr), ("B", "", .TStr)] [] := by
  decide

/-- C5 amended: profile construction is deterministic only up to the
iteration order of the source field map — any two runs over the same
type descriptors yield correspondence lists that are permutations of
each other (the same set of correspondences, method entries included),
but not necessarily the same list nor declaration order. -/
theorem createProfile_perm_of_order_perm (o₁ o₂ : List String)
    (srcFields destFields : List (String × String × GoType))
    (srcMethods : List String) (h : o₁.Perm o₂) :
    (createProfile o₁ srcFields destFields srcMethods).Perm
      (createProfile o₂ srcFields destFields srcMethods) := by
  unfold createProfile
  exact List.Perm.append_right _ (h.filterMap _)

/-- Witness for the amended C5 theorem at the two concrete orders. -/
theorem createProfile_perm_of_order_perm_witness :
    (["A", "B"] : List String).Perm ["B", "A"] ∧
      (createProfile ["A", "B"]
          [("A", "", .TStr), ("B", "", .TStr)]
          [("A", "", .TStr), ("B", "", .TStr)] []).Perm
        (createProfile ["B", "A"]
          [("A", "", .TStr), ("B", "", .TStr)]
          [("A", "", .TStr), ("B", "", .TStr)] []) :=
  ⟨by decide,
    createProfile_perm_of_order_perm ["A", "B"] ["B", "A"]
      [("A", "", .TStr), ("B", "", .TStr)]
      [("A", "", .TStr), ("B", "", .TStr)] [] (by decide)⟩

theorem lookupA_insertA_isSome {α β : Type} [DecidableEq α]
    (l : List (α × β)) (k₀ k : α) (v : β) :
    (lookupA (insertA l k₀ v) k).isSome =
      (if k₀ = k then true else (lookupA l k).isSome) := by
  by_cases h : k₀ = k
  · subst h; simp [lookupA_insertA_self]
  · simp [h, lookupA_insertA_ne l k₀ k v h]

/-- Membership of a name in `keysToTags` is exactly the existence of a
field by that name, independently of visiting order. -/
theorem keysToTags_foldl_isSome (fields : List (String × String × GoType))
    (acc : TypeMeta) (k : String) :
    (lookupA (fields.foldl getTypeMetaStep acc).keysToTags k).isSome =
      (fields.any (fun f => f.1 == k) || (lookupA acc.keysToTags k).isSome) := by
  induction fields generalizing acc with
  | nil => simp
  | cons f rest ih =>
      rw [List.foldl_cons, ih]
      have hstep : (lookupA (getTypeMetaStep acc f).keysToTags k).isSome =
          (if f.1 = k then true else (lookupA acc.keysToTags k).isSome) := by
        unfold getTypeMetaStep
        by_cases ht : f.2.1 ≠ "" <;> simp [ht, lookupA_insertA_isSome]
      rw [hstep]
      by_cases hk : f.1 = k
      · simp [hk]
      · have hb : (f.1 == k) = false := beq_eq_false_iff_ne.mpr hk
        simp [hk, hb]

theorem getTypeMeta_keys_isSome (fields : List (String × String × GoType))
    (k : String) :
    (lookupA (getTypeMeta fields).keysToTags k).isSome =
      fields.any (fun f => f.1 == k) := by
  unfold getTypeMeta
  rw [keysToTags_foldl_isSome]
  simp [lookupA]

/-- Reading `tagsToKeys` when the non-empty destination tags are
pairwise distinct is exactly the declaration-order search for a field
carrying that tag. -/
theorem tagsToKeys_foldl_lookup (fields : List (String × String × GoType))
    (acc : TypeMeta) (t : String)
    (hnd : (fields.filterMap
        (fun f => if f.2.1 = "" then none else some f.2.1)).Nodup) :
    lookupA (fields.foldl getTypeMetaStep acc).tagsToKeys t =
      (fields.find? (fun f => f.2.1 == t && f.2.1 != "")).elim
        (lookupA acc.tagsToKeys t) (fun f => some f.1) := by
  induction fields generalizing acc with
  | nil => simp
  | cons f rest ih =>
      rw [List.foldl_cons]
      by_cases hz : f.2.1 = ""
      · have hcond : (f.2.1 == t && f.2.1 != "") = false := by
          simp [hz]
        have hacc : (getTypeMetaStep acc f).tagsToKeys = acc.tagsToKeys := by
          unfold getTypeMetaStep
          simp [hz]
        have hnd₂ :
            (rest.filterMap
              (fun f => if f.2.1 = "" then none else some f.2.1)).Nodup := by
          rw [List.filterMap_cons] at hnd
          simpa [hz] using hnd
        rw [ih _ hnd₂, hacc, List.find?_cons, hcond]
      · have hsplit := hnd
        rw [List.filterMap_cons] at hsplit
        simp only [hz, if_false] at hsplit
        have hnotin : f.2.1 ∉ rest.filterMap
            (fun f => if f.2.1 = "" then none else some f.2.1) :=
          (List.nodup_cons.mp hsplit).1
        have hnd₂ := (List.nodup_cons.mp hsplit).2
        by_cases hteq : f.2.1 = t
        · have hcond : (f.2.1 == t && f.2.1 != "") = true := by
            simp [hteq, hteq ▸ hz]
          have hrest : rest.find? (fun f => f.2.1 == t && f.2.1 != "") = none := by
            apply List.find?_eq_none.mpr
            intro g hg hpg
            apply hnotin
            rw [List.mem_filterMap]
            refine ⟨g, hg, ?_⟩
            simp only [Bool.and_eq_true, beq_iff_eq, bne_iff_ne] at hpg
            rw [if_neg hpg.2]
            exact congrArg some (hpg.1.trans hteq.symm)
          have hins : (getTypeMetaStep acc f).tagsToKeys =
              insertA acc.tagsToKeys f.2.1 f.1 := by
            unfold getTypeMetaStep
            simp [hz]
          have hacc : lookupA (getTypeMetaStep acc f).tagsToKeys t = some f.1 := by
            rw [hins, ← hteq]
            exact lookupA_insertA_self acc.tagsToKeys f.2.1 f.1
          rw [ih _ hnd₂, hrest, List.find?_cons, hcond]
          simp [hacc]
        · have hcond : (f.2.1 == t && f.2.1 != "") = false := by
            simp [hteq]
          have hins : (getTypeMetaStep acc f).tagsToKeys =
              insertA acc.tagsToKeys f.2.1 f.1 := by
            unfold getTypeMetaStep
            simp [hz]
          have hacc : lookupA (getTypeMetaStep acc f).tagsToKeys t =
              lookupA acc.tagsToKeys t := by
            rw [hins]
            exact lookupA_insertA_ne acc.tagsToKeys f.2.1 t f.1 hteq
          rw [ih _ hnd₂, hacc, List.find?_cons, hcond]

theorem getTypeMeta_tags_lookup (fields : List (String × String × GoType))
    (t : String)
    (hnd : (fields.filterMap
        (fun f => if f.2.1 = "" then none else some f.2.1)).Nodup) :
    lookupA (getTypeMeta fields).tagsToKeys t =
      (fields.find? (fun f => f.2.1 == t && f.2.1 != "")).map (fun f => f.1) := by
  unfold getTypeMeta
  rw [tagsToKeys_foldl_lookup fields ⟨[], []⟩ t hnd]
  cases fields.find? (fun f => f.2.1 == t && f.2.1 != "") <;> simp [lookupA]

/-- Helper: on well-formed destination fields (no empty field name, and
pairwise distinct non-empty tags) the computed `getDestinationKey`
agrees with the specification-side five-rule search. -/
theorem getDestinationKey_eq_spec (srcKey srcTag : String)
    (destFields : List (String × String × GoType))
    (hname : ∀ f ∈ destFields, f.1 ≠ "")
    (htags : (destFields.filterMap
        (fun f => if f.2.1 = "" then none else some f.2.1)).Nodup) :
    getDestinationKey srcKey srcTag (getTypeMeta destFields) =
      destSelectSpec srcKey srcTag destFields := by
  have h4 : destFields.any (fun f => f.1 == srcTag) =
      (srcTag != "" && destFields.any (fun f => f.1 == srcTag)) := by
    by_cases hst : srcTag = ""
    · subst hst
      simp only [bne_self_eq_false, Bool.false_and]
      rw [List.any_eq_false]
      intro g hg
      simpa using hname g hg
    · simp [bne_iff_ne, hst]
  unfold getDestinationKey destSelectSpec
  rw [getTypeMeta_keys_isSome, getTypeMeta_keys_isSome,
    getTypeMeta_tags_lookup _ _ htags, getTypeMeta_keys_isSome,
    getTypeMeta_tags_lookup _ _ htags, h4]
  simp only [← Bool.and_assoc, Bool.and_self]

/-- C4: for a source field (name S, alias tag T), the profile builder
selects the destination field by the five-rule precedence of §4.2
(computed `getDestinationKey` equals the specification-side search
`destSelectSpec`); when no rule matches, no correspondence for that
source field appears in the built profile, and profile construction
cannot fail (it is a total function in this embedding); when a rule
matches, the correspondence appears for every visiting order containing
the field. -/
theorem profile_builder_precedence (order : List String)
    (srcFields destFields : List (String × String × GoType))
    (srcMethods : List String) (srcKey srcTag : String)
    (hname : ∀ f ∈ destFields, f.1 ≠ "")
    (htags : (destFields.filterMap
        (fun f => if f.2.1 = "" then none else some f.2.1)).Nodup)
    (hsrc : lookupA (getTypeMeta srcFields).keysToTags srcKey = some srcTag) :
    getDestinationKey srcKey srcTag (getTypeMeta destFields) =
        destSelectSpec srcKey srcTag destFields ∧
      (destSelectSpec srcKey srcTag destFields = none → srcKey ∉ srcMethods →
        ∀ dk, (srcKey, dk) ∉ createProfile order srcFields destFields srcMethods) ∧
      (∀ dk, destSelectSpec srcKey srcTag destFields = some dk → srcKey ∈ order →
        (srcKey, dk) ∈ createProfile order srcFields destFields srcMethods) := by
  have heq := getDestinationKey_eq_spec srcKey srcTag destFields hname htags
  refine ⟨heq, ?_, ?_⟩
  · intro hnone hnm dk hmem
    simp only [createProfile, List.mem_append, List.mem_filterMap] at hmem
    rcases hmem with ⟨k, hk, hf⟩ | ⟨m, hm, hf⟩
    · split at hf
      · exact Option.noConfusion hf
      · next tag hlk =>
          split at hf
          · next dk₀ hgd =>
              simp only [Option.some.injEq, Prod.mk.injEq] at hf
              obtain ⟨h₁, h₂⟩ := hf
              subst h₁
              rw [hsrc] at hlk
              injection hlk with h₃
              subst h₃
              rw [heq, hnone] at hgd
              exact Option.noConfusion hgd
          · exact Option.noConfusion hf
    · by_cases hc : (lookupA (getTypeMeta destFields).keysToTags m).isSome
      · simp only [hc, if_true, Option.some.injEq, Prod.mk.injEq] at hf
        exact hnm (hf.1 ▸ hm)
      · simp [hc] at hf
  · intro dk hsome horder
    simp only [createProfile, List.mem_append]
    left
    rw [List.mem_filterMap]
    refine ⟨srcKey, horder, ?_⟩
    rw [hsrc]
    show (match getDestinationKey srcKey srcTag (getTypeMeta destFields) with
      | some destKey => some (srcKey, destKey)
      | none => none) = some (srcKey, dk)
    rw [heq, hsome]

/-- Witness for C4 at the alias example of the spec: source field `id`
with alias tag `identifier`, destination field literally named
`identifier`. -/
theorem profile_builder_precedence_witness :
    (∀ f ∈ [("identifier", "", GoType.TInt)], f.1 ≠ "") ∧
      getDestinationKey "id" "identifier"
          (getTypeMeta [("identifier", "", GoType.TInt)]) =
        destSelectSpec "id" "identifier" [("identifier", "", GoType.TInt)] :=
  ⟨by decide,
    (profile_builder_precedence ["id"] [("id", "identifier", .TInt)]
      [("identifier", "", .TInt)] [] "id" "identifier"
      (by decide) (by decide) rfl).1⟩

/-- C1 (code defect): `CreateCustomMap` as written stores the empty
struct value `struct{}{}` in the registry instead of the supplied
transform (and the older variant of the file stores nothing at all), so
a subsequent scalar `Map` reaches `reflect.ValueOf(fn).Call` on a
non-function value and panics (`none`) instead of returning `fn(src)`:
registering (Source, Destination) and mapping `Source{Name: "Test"}`
panics.  The package tests install the function value directly into
`maps` and expect `Map` to return exactly `fn(src)`, which documents the
intended behavior. -/
theorem createCustomMap_then_map_panics :
    goCreateCustomMap false (.TStruct "Source") (.TStruct "Destination")
        ⟨[], []⟩ =
      (Except.ok (),
        ⟨[((.TStruct "Source", .TStruct "Destination"), MapEntry.marker)], []⟩) ∧
    goMap envCustom 100
        [((.TStruct "Source", .TStruct "Destination"), MapEntry.marker)]
        (.TStruct "Source") (.TStruct "Destination") 1
        [.VStr "Test", .VStruct [("Name", 0)]] = none :=
  ⟨rfl, rfl⟩

/-- C9 (code defect): with a custom transform entry installed for
(Source, Destination) — as the package tests do — mapping the
one-element slice `[Source{Name: "A"}]` first applies the transform
element-wise (`mapArray`; the transform itself produces
`Destination{Name: "A"}`, first conjunct), but `Map` then falls through
to the generic `processValues` pass, whose `mapSlices` replaces the
destination with a fresh zero-filled slice; with no cached profile for
the pair, the final destination element is `Destination{Name: ""}` (the
cells at addresses 7 and 6 of the final store), not `fn(src[0])`.  With
the entry `CreateCustomMap` actually stores (the marker), the run
panics instead, as in the previous claim. -/
theorem map_sequence_custom_overwritten :
    envSeq.funcs "copyName" [.VStr "A", .VStruct [("Name", 0)], .VSlice [1]] 1 =
      some ([.VStr "A", .VStruct [("Name", 0)], .VSlice [1], .VStr "A",
             .VStruct [("Name", 3)]], (4, .TStruct "Destination")) ∧
    goMap envSeq 100
        [((.TStruct "Source", .TStruct "Destination"), MapEntry.custom "copyName")]
        (.TSlice (.TStruct "Source")) (.TSlice (.TStruct "Destination")) 2
        [.VStr "A", .VStruct [("Name", 0)], .VSlice [1]] =
      some (Except.ok (3,
        [.VStr "A", .VStruct [("Name", 0)], .VSlice [1], .VSlice [7],
         .VStr "A", .VStruct [("Name", 4)], .VStr "", .VStruct [("Name", 6)]])) ∧
    readCell
        [.VStr "A", .VStruct [("Name", 0)], .VSlice [1], .VSlice [7],
         .VStr "A", .VStruct [("Name", 4)], .VStr "", .VStruct [("Name", 6)]] 6 ≠
      some (.VStr "A") :=
  ⟨rfl, rfl, by decide⟩

/-- C6 counterexample: transferring the two-entry source map
`map[Ks]int{{X:1}: 10, {X:2}: 20}` into a `map[Kd]int` destination when
no profile is cached for the struct key pair leaves both transferred
keys at the zero value of `Kd`; the second `SetMapIndex` overwrites the
first entry, so the destination ends with one entry, not two. -/
theorem mapMaps_entry_count_counterexample :
    processValues envAssoc 100 (some (6, .TMap (.TStruct "Ks") .TInt))
        (some (7, .TMap (.TStruct "Kd") .TInt))
        [.VInt 1, .VStruct [("X", 0)], .VInt 10, .VInt 2, .VStruct [("X", 3)],
         .VInt 20, .VMap [(1, 2), (4, 5)], .VMap []] =
      some
        [.VInt 1, .VStruct [("X", 0)], .VInt 10, .VInt 2, .VStruct [("X", 3)],
         .VInt 20, .VMap [(1, 2), (4, 5)], .VMap [(9, 13)], .VInt 0,
         .VStruct [("X", 8)], .VInt 10, .VInt 0, .VStruct [("X", 11)],
         .VInt 20] ∧
    ([(9, 13)] : List (Addr × Addr)).length ≠
      ([(1, 2), (4, 5)] : List (Addr × Addr)).length :=
  ⟨rfl, by decide⟩

theorem goodAbove_of_length (st : Store) : goodAbove st.length st := by
  intro a v ha hv
  have : a < st.length := by
    by_contra h
    push_neg at h
    rw [readCell, List.getElem?_eq_none h] at hv
    cases hv
  omega

theorem extendsFresh_refl (st : Store) : ExtendsFresh st st :=
  ⟨fun _ _ => rfl, le_refl _, fun c v hc hv => by
    have : c < st.length := by
      by_contra h
      push_neg at h
      rw [readCell, List.getElem?_eq_none h] at hv
      cases hv
    omega⟩

theorem extendsFresh_trans {st₁ st₂ st₃ : Store}
    (h₁ : ExtendsFresh st₁ st₂) (h₂ : ExtendsFresh st₂ st₃) :
    ExtendsFresh st₁ st₃ := by
  obtain ⟨b₁, l₁, g₁⟩ := h₁
  obtain ⟨b₂, l₂, g₂⟩ := h₂
  refine ⟨fun b hb => ?_, le_trans l₁ l₂, fun c v hc hv hb => ?_⟩
  · rw [b₂ b (lt_of_lt_of_le hb l₁), b₁ b hb]
  · intro hbm
    by_cases hcl : c < st₂.length
    · exact g₁ c v hc (by rw [← b₂ c hcl]; exact hv) hb hbm
    · push_neg at hcl
      exact le_trans l₁ (g₂ c v hcl hv hb hbm)

theorem extendsFresh_goodAbove {st st' : Store} (h : ExtendsFresh st st') :
    goodAbove st.length st' :=
  fun a v ha hv => h.2.2 a v ha hv

theorem readCell_append (st l : Store) (a : Addr) (h : a < st.length) :
    readCell (st ++ l) a = readCell st a := by
  unfold readCell
  exact List.getElem?_append_left h

theorem extendsFresh_append {st st₁ : Store} (v : GoVal)
    (h : ExtendsFresh st st₁) (hrefs : ∀ b ∈ cellRefs v, st.length ≤ b) :
    ExtendsFresh st (st₁ ++ [v]) := by
  obtain ⟨hb, hl, hg⟩ := h
  refine ⟨fun b hbm => ?_, ?_, fun c w hc hw => ?_⟩
  · rw [readCell_append _ _ _ (lt_of_lt_of_le hbm hl), hb b hbm]
  · simpa using le_trans hl (Nat.le_succ _)
  · by_cases hcl : c < st₁.length
    · rw [readCell_append _ _ _ hcl] at hw
      exact hg c w hc hw
    · push_neg at hcl
      unfold readCell at hw
      rw [List.getElem?_append_right hcl] at hw
      rcases Nat.lt_or_ge (c - st₁.length) 1 with hlt | hge
      · have hc0 : c - st₁.length = 0 := by omega
        rw [hc0] at hw
        simp at hw
        subst hw
        exact hrefs
      · rw [List.getElem?_eq_none (by simpa using hge)] at hw
        cases hw

theorem readCell_writeCell_ne (st : Store) (a : Addr) (v : GoVal) (c : Addr)
    (h : a ≠ c) : readCell (writeCell st a v) c = readCell st c := by
  unfold readCell writeCell
  exact List.getElem?_set_ne h

theorem readCell_writeCell_self (st : Store) (a : Addr) (v : GoVal)
    (h : a < st.length) : readCell (writeCell st a v) a = some v := by
  unfold readCell writeCell
  exact List.getElem?_set_self h

theorem frameOut_refl {wm : Nat} {st : Store} (h : goodAbove wm st) :
    FrameOut wm st st :=
  ⟨fun _ _ => rfl, le_refl _, h⟩

theorem frameOut_trans {wm : Nat} {st₁ st₂ st₃ : Store}
    (h₁ : FrameOut wm st₁ st₂) (h₂ : FrameOut wm st₂ st₃) :
    FrameOut wm st₁ st₃ :=
  ⟨fun a ha => (h₂.1 a ha).trans (h₁.1 a ha), le_trans h₁.2.1 h₂.2.1, h₂.2.2⟩

theorem writeCell_frame {wm : Nat} {st : Store} {a : Addr} {v : GoVal}
    (ha : wm ≤ a) (hg : goodAbove wm st)
    (hrefs : ∀ b ∈ cellRefs v, wm ≤ b) :
    FrameOut wm st (writeCell st a v) := by
  have hbelow : agreesBelow wm st (writeCell st a v) := by
    intro c hc
    have hne : a ≠ c := Nat.ne_of_gt (lt_of_lt_of_le hc ha)
    exact readCell_writeCell_ne st a v c hne
  have hlen : st.length ≤ (writeCell st a v).length := by
    simp [writeCell]
  have habove : goodAbove wm (writeCell st a v) := by
    intro c w hcw hr
    by_cases hca : a = c
    · subst hca
      by_cases hal : a < st.length
      · rw [readCell_writeCell_self st a v hal] at hr
        cases hr
        exact hrefs
      · unfold readCell writeCell at hr
        rw [List.getElem?_eq_none (by simpa using hal)] at hr
        cases hr
    · rw [readCell_writeCell_ne st a v c hca] at hr
      exact hg c w hcw hr
  exact ⟨hbelow, hlen, habove⟩

theorem extendsFresh_frameOut {wm : Nat} {st st' : Store}
    (h : ExtendsFresh st st') (hwm : wm ≤ st.length) (hg : goodAbove wm st) :
    FrameOut wm st st' := by
  obtain ⟨hb, hl, hgf⟩ := h
  refine ⟨fun a ha => hb a (by omega), hl, fun c v hc hv hr => ?_⟩
  intro hrm
  by_cases hcl : c < st.length
  · rw [hb c hcl] at hv
    exact hg c v hc hv hr hrm
  · push_neg at hcl
    exact le_trans hwm (hgf c v hcl hv hr hrm)

theorem goSet_frame {wm : Nat} {st st' : Store}
    {src dest : Option (Addr × GoType)}
    (hd : destOK wm dest) (hg : goodAbove wm st)
    (h : goSet st src dest = some st') : FrameOut wm st st' := by
  unfold goSet at h
  rcases src with _ | ⟨sa, sty⟩
  · cases h
  rcases dest with _ | ⟨da, dty⟩
  · cases h
  by_cases hty : sty = dty
  · simp only [hty, if_true] at h
    rcases hr : readCell st sa with _ | v <;> rw [hr] at h
    · cases h
    · have hda : wm ≤ da := hd
      cases v with
      | VInt n =>
          cases h
          exact writeCell_frame hda hg (by intro b hb; cases hb)
      | VStr s =>
          cases h
          exact writeCell_frame hda hg (by intro b hb; cases hb)
      | VBool b =>
          cases h
          exact writeCell_frame hda hg (by intro b hb; cases hb)
      | VStruct fs => cases h
      | VSlice es => cases h
      | VMap es => cases h
      | VPtr p => cases h
      | VIface i => cases h
  · simp [hty] at h

/-- A field address obtained from an association-list lookup is among
the referenced addresses of the struct cell. -/
theorem lookupA_mem_map {fs : List (String × Addr)} {n : String} {a : Addr}
    (h : lookupA fs n = some a) : a ∈ fs.map (fun p => p.2) := by
  induction fs with
  | nil => cases h
  | cons hd tl ih =>
      obtain ⟨k, v⟩ := hd
      unfold lookupA at h
      by_cases hk : k = n
      · simp only [hk, if_true] at h
        cases h
        simp
      · simp only [hk, if_false] at h
        simp only [List.map_cons, List.mem_cons]
        exact Or.inr (ih h)

theorem oracleFrame_frameOut {f : Store → Addr → Option (Store × (Addr × GoType))}
    (hf : OracleFrame f) {st st' : Store} {a : Addr} {rv : Addr × GoType}
    {wm : Nat} (h : f st a = some (st', rv)) (hwm : wm ≤ st.length)
    (hg : goodAbove wm st) : FrameOut wm st st' :=
  extendsFresh_frameOut (hf st a st' rv h).1 hwm hg

theorem cellRefs_VMap_mem (es : List (Addr × Addr)) (b : Addr) :
    b ∈ cellRefs (.VMap es) ↔ ∃ p ∈ es, b = p.1 ∨ b = p.2 := by
  unfold cellRefs
  induction es with
  | nil => simp
  | cons hd tl ih =>
      simp only [List.foldr_cons, List.mem_cons, ih]
      constructor
      · rintro (rfl | rfl | ⟨p, hp, hb⟩)
        · exact ⟨hd, Or.inl rfl, Or.inl rfl⟩
        · exact ⟨hd, Or.inl rfl, Or.inr rfl⟩
        · exact ⟨p, Or.inr hp, hb⟩
      · rintro ⟨p, rfl | hp, hb⟩
        · rcases hb with rfl | rfl
          · exact Or.inl rfl
          · exact Or.inr (Or.inl rfl)
        · exact Or.inr (Or.inr ⟨p, hp, hb⟩)

theorem mapAssocSet_mem {fuel : Nat} {st : Store} {dk dv : Addr} :
    ∀ {es es' : List (Addr × Addr)}, mapAssocSet fuel st dk dv es = some es' →
      ∀ p ∈ es', (p.1 = dk ∨ p.1 ∈ es.map (fun q => q.1)) ∧
        (p.2 = dv ∨ p.2 ∈ es.map (fun q => q.2)) := by
  intro es
  induction es with
  | nil =>
      intro es' h p hp
      unfold mapAssocSet at h
      cases h
      simp only [List.mem_singleton] at hp
      subst hp
      exact ⟨Or.inl rfl, Or.inl rfl⟩
  | cons hd tl ih =>
      intro es' h p hp
      obtain ⟨k, v⟩ := hd
      unfold mapAssocSet at h
      rcases hv : valEq fuel st k dk with _ | b <;> rw [hv] at h
      · cases h
      · cases b
        · rcases hrec : mapAssocSet fuel st dk dv tl with _ | r <;>
            rw [hrec] at h
          · cases h
          · cases h
            rcases List.mem_cons.mp hp with rfl | hptl
            · exact ⟨Or.inr (by simp), Or.inr (by simp)⟩
            · obtain ⟨h₁, h₂⟩ := ih hrec p hptl
              refine ⟨?_, ?_⟩
              · rcases h₁ with h₁ | h₁
                · exact Or.inl h₁
                · exact Or.inr (by simp [h₁])
              · rcases h₂ with h₂ | h₂
                · exact Or.inl h₂
                · exact Or.inr (by simp [h₂])
        · cases h
          rcases List.mem_cons.mp hp with rfl | hptl
          · exact ⟨Or.inr (by simp), Or.inl rfl⟩
          · refine ⟨Or.inr ?_, Or.inr ?_⟩
            · simp only [List.map_cons, List.mem_cons]
              exact Or.inr (List.mem_map_of_mem _ hptl)
            · simp only [List.map_cons, List.mem_cons]
              exact Or.inr (List.mem_map_of_mem _ hptl)

theorem mapAssocSet_length {fuel : Nat} {st : Store} {dk dv : Addr} :
    ∀ {es es' : List (Addr × Addr)}, mapAssocSet fuel st dk dv es = some es' →
      es'.length ≤ es.length + 1 := by
  intro es
  induction es with
  | nil =>
      intro es' h
      cases h
      simp
  | cons hd tl ih =>
      intro es' h
      obtain ⟨k, v⟩ := hd
      unfold mapAssocSet at h
      rcases hv : valEq fuel st k dk with _ | b <;> rw [hv] at h
      · cases h
      · cases b
        · rcases hrec : mapAssocSet fuel st dk dv tl with _ | r <;>
            rw [hrec] at h
          · cases h
          · cases h
            have := ih hrec
            simp only [List.length_cons]
            omega
        · cases h
          simp

theorem setMapIndex_frame {wm fuel : Nat} {st st' : Store} {da dk dv : Addr}
    (hda : wm ≤ da) (hdk : wm ≤ dk) (hdv : wm ≤ dv) (hg : goodAbove wm st)
    (h : setMapIndex fuel st da dk dv = some st') : FrameOut wm st st' := by
  unfold setMapIndex at h
  split at h
  · next es hr =>
      split at h
      · cases h
      · next es₂ hset =>
          cases h
          apply writeCell_frame hda hg
          intro b hb
          rw [cellRefs_VMap_mem] at hb
          obtain ⟨p, hp, hcase⟩ := hb
          have hold := hg da (.VMap es) hda hr
          obtain ⟨h₁, h₂⟩ := mapAssocSet_mem hset p hp
          rcases hcase with rfl | rfl
          · rcases h₁ with h₁ | h₁
            · exact h₁ ▸ hdk
            · obtain ⟨q, hq, hqe⟩ := List.mem_map.mp h₁
              exact hqe ▸ hold q.1 ((cellRefs_VMap_mem es q.1).mpr ⟨q, hq, Or.inl rfl⟩)
          · rcases h₂ with h₂ | h₂
            · exact h₂ ▸ hdv
            · obtain ⟨q, hq, hqe⟩ := List.mem_map.mp h₂
              exact hqe ▸ hold q.2 ((cellRefs_VMap_mem es q.2).mpr ⟨q, hq, Or.inr rfl⟩)
  · cases h

theorem mapArrayGo_frame {env : MapperEnv} {fid : String}
    (hEnv : EnvFrame env) :
    ∀ {elems acc : List Addr} {desRef : Addr} {st st' : Store} {wm : Nat},
      wm ≤ st.length → goodAbove wm st → wm ≤ desRef →
      (∀ a ∈ acc, wm ≤ a) →
      mapArrayGo env fid elems acc desRef st = some st' →
      FrameOut wm st st' := by
  intro elems
  induction elems with
  | nil =>
      intro acc desRef st st' wm hwm hg hdes hacc h
      unfold mapArrayGo at h
      cases h
      apply writeCell_frame hdes hg
      intro b hb
      unfold cellRefs at hb
      exact hacc b (List.mem_reverse.mp hb)
  | cons e rest ih =>
      intro acc desRef st st' wm hwm hg hdes hacc h
      unfold mapArrayGo at h
      rcases hor : env.funcs fid st e with _ | p <;> rw [hor] at h
      · cases h
      · obtain ⟨st₁, rv⟩ := p
        have horc := (hEnv.2 fid) st e st₁ rv hor
        have hf₁ : FrameOut wm st st₁ :=
          extendsFresh_frameOut horc.1 hwm hg
        have hrv : wm ≤ rv.1 := le_trans hwm horc.2.1
        have hf₂ := ih (le_trans hwm hf₁.2.1) hf₁.2.2 hdes
          (by
            intro a ha
            rcases List.mem_cons.mp ha with rfl | ha₂
            · exact hrv
            · exact hacc a ha₂) h
        exact frameOut_trans hf₁ hf₂

theorem fieldByNameD_destOK {env : MapperEnv} {st : Store}
    {rv : Addr × GoType} {fname : String} {fld : Option (Addr × GoType)}
    {wm : Nat} (h : fieldByNameD env st rv fname = some fld)
    (hrv : wm ≤ rv.1) (hg : goodAbove wm st) : destOK wm fld := by
  unfold fieldByNameD at h
  split at h
  · split at h
    · cases h
      trivial
    · next f hf =>
        split at h
        · next fs hread =>
            split at h
            · next fa hfa =>
                cases h
                exact hg rv.1 (.VStruct fs) hrv hread fa (lookupA_mem_map hfa)
            · exact Option.noConfusion h
        · exact Option.noConfusion h
  · exact Option.noConfusion h

/-- Frame property of every engine function, proved by one induction on
the fuel: under watermark `wm` (no existing cell at or above `wm`
references below it, the destination lies at or above `wm`, and the user
code oracles respect the frame obligation), a successful step leaves
every cell below `wm` unchanged, only grows the store, and preserves the
watermark invariant.  The allocation functions additionally return fresh
self-contained cells. -/
theorem engine_frame : ∀ fuel : Nat,
    (∀ env src dest st st' wm, EnvFrame env → wm ≤ st.length →
      goodAbove wm st → destOK wm dest →
      processValues env fuel src dest st = some st' → FrameOut wm st st') ∧
    (∀ env src dest st st' wm, EnvFrame env → wm ≤ st.length →
      goodAbove wm st → destOK wm dest →
      mapStructs env fuel src dest st = some st' → FrameOut wm st st') ∧
    (∀ env profile srcv destv st st' wm, EnvFrame env → wm ≤ st.length →
      goodAbove wm st → wm ≤ (destv : Addr × GoType).1 →
      mapStructsGo env fuel profile srcv destv st = some st' →
      FrameOut wm st st') ∧
    (∀ env srcv fname st st₁ rv wm, EnvFrame env → wm ≤ st.length →
      goodAbove wm st →
      retrieveSourceFieldValue env fuel srcv fname st = some (st₁, rv) →
      FrameOut wm st st₁) ∧
    (∀ env src dest st st' wm, EnvFrame env → wm ≤ st.length →
      goodAbove wm st → destOK wm dest →
      mapSlices env fuel src dest st = some st' → FrameOut wm st st') ∧
    (∀ env sE dE pairs st st' wm, EnvFrame env → wm ≤ st.length →
      goodAbove wm st → (∀ p ∈ pairs, wm ≤ (p : Addr × Addr).2) →
      mapSlicesGo env fuel sE dE pairs st = some st' → FrameOut wm st st') ∧
    (∀ env src dest st st' wm, EnvFrame env → wm ≤ st.length →
      goodAbove wm st → destOK wm dest →
      mapMaps env fuel src dest st = some st' → FrameOut wm st st') ∧
    (∀ env sK sV dK dV entries da st st' wm, EnvFrame env → wm ≤ st.length →
      goodAbove wm st → wm ≤ da →
      mapMapsGo env fuel sK sV dK dV entries da st = some st' →
      FrameOut wm st st') ∧
    (∀ env src dest st st' wm, EnvFrame env → wm ≤ st.length →
      goodAbove wm st → destOK wm dest →
      mapPointers env fuel src dest st = some st' → FrameOut wm st st') ∧
    (∀ env ty st a st', allocZero env fuel ty st = some (a, st') →
      ExtendsFresh st st' ∧ st.length ≤ a ∧ a < st'.length) ∧
    (∀ env fields st fs st',
      allocZeroFields env fuel fields st = some (fs, st') →
      ExtendsFresh st st' ∧
        ∀ p ∈ fs, st.length ≤ (p : String × Addr).2 ∧ p.2 < st'.length) ∧
    (∀ env ty n st addrs st',
      allocZeroMany env fuel ty n st = some (addrs, st') →
      ExtendsFresh st st' ∧ ∀ a ∈ addrs, st.length ≤ a ∧ a < st'.length) ∧
    (∀ env ty a st st' wm, wm ≤ st.length → goodAbove wm st → wm ≤ a →
      writeZeroVal env fuel ty a st = some st' → FrameOut wm st st') ∧
    (∀ env fields fs st st' wm, wm ≤ st.length → goodAbove wm st →
      (∀ p ∈ fs, wm ≤ (p : String × Addr).2) →
      writeZeroFields env fuel fields fs st = some st' →
      FrameOut wm st st') := by
  intro fuel
  induction fuel with
  | zero =>
      refine ⟨?_, ?_, ?_, ?_, ?_, ?_, ?_, ?_, ?_, ?_, ?_, ?_, ?_, ?_⟩
      · intro env src dest st st' wm _ _ _ _ h
        simp [processValues] at h
      · intro env src dest st st' wm _ _ _ _ h
        simp [mapStructs] at h
      · intro env profile srcv destv st st' wm _ _ _ _ h
        simp [mapStructsGo] at h
      · intro env srcv fname st st₁ rv wm _ _ _ h
        simp [retrieveSourceFieldValue] at h
      · intro env src dest st st' wm _ _ _ _ h
        simp [mapSlices] at h
      · intro env sE dE pairs st st' wm _ _ _ _ h
        simp [mapSlicesGo] at h
      · intro env src dest st st' wm _ _ _ _ h
        simp [mapMaps] at h
      · intro env sK sV dK dV entries da st st' wm _ _ _ _ h
        simp [mapMapsGo] at h
      · intro env src dest st st' wm _ _ _ _ h
        simp [mapPointers] at h
      · intro env ty st a st' h
        simp [allocZero] at h
      · intro env fields st fs st' h
        simp [allocZeroFields] at h
      · intro env ty n st addrs st' h
        simp [allocZeroMany] at h
      · intro env ty a st st' wm _ _ _ h
        simp [writeZeroVal] at h
      · intro env fields fs st st' wm _ _ _ h
        simp [writeZeroFields] at h
  | succ fuel ih =>
      obtain ⟨ihPV, ihMS, ihMSG, ihRS, ihSL, ihSLG, ihMM, ihMMG, ihMP,
        ihAZ, ihAZF, ihAZM, ihWZ, ihWZF⟩ := ih
      refine ⟨?_, ?_, ?_, ?_, ?_, ?_, ?_, ?_, ?_, ?_, ?_, ?_, ?_, ?_⟩
      · -- processValues
        intro env src dest st st' wm hEnv hwm hg hd h
        rw [processValues] at h
        split at h
        · exact ihMS env _ dest st st' wm hEnv hwm hg hd h
        · exact ihSL env _ dest st st' wm hEnv hwm hg hd h
        · exact ihMM env _ dest st st' wm hEnv hwm hg hd h
        · exact ihMP env _ dest st st' wm hEnv hwm hg hd h
        · exact goSet_frame hd hg h
      · -- mapStructs
        intro env src dest st st' wm hEnv hwm hg hd h
        rcases src with _ | srcv
        · simp [mapStructs] at h
        rcases dest with _ | destv
        · simp [mapStructs] at h
        rw [mapStructs] at h
        split at h
        · cases h
          exact frameOut_refl hg
        · exact ihMSG env _ srcv destv st st' wm hEnv hwm hg hd h
      · -- mapStructsGo
        intro env profile srcv destv st st' wm hEnv hwm hg hd h
        rcases profile with _ | ⟨⟨srcName, destName⟩, rest⟩
        · rw [mapStructsGo] at h
          cases h
          exact frameOut_refl hg
        · rw [mapStructsGo] at h
          split at h
          · exact Option.noConfusion h
          · next st₁ sourceField hret =>
              have hf₁ : FrameOut wm st st₁ :=
                ihRS env srcv srcName st st₁ sourceField wm hEnv hwm hg hret
              split at h
              · exact Option.noConfusion h
              · next destinationField hfld =>
                  have hdo : destOK wm destinationField :=
                    fieldByNameD_destOK hfld hd hf₁.2.2
                  split at h
                  · exact Option.noConfusion h
                  · next st₂ hpv =>
                      have hf₂ : FrameOut wm st₁ st₂ :=
                        ihPV env sourceField destinationField st₁ st₂ wm hEnv
                          (le_trans hwm hf₁.2.1) hf₁.2.2 hdo hpv
                      have hf₃ : FrameOut wm st₂ st' :=
                        ihMSG env rest srcv destv st₂ st' wm hEnv
                          (le_trans (le_trans hwm hf₁.2.1) hf₂.2.1)
                          hf₂.2.2 hd h
                      exact frameOut_trans (frameOut_trans hf₁ hf₂) hf₃
      · -- retrieveSourceFieldValue
        intro env srcv fname st st₁ rv wm hEnv hwm hg h
        rw [retrieveSourceFieldValue] at h
        split at h
        · exact Option.noConfusion h
        · split at h
          · cases h
            exact frameOut_refl hg
          · cases h
            exact frameOut_refl hg
        · split at h
          · cases h
            exact frameOut_refl hg
          · next st₂ rv₂ hme =>
              cases h
              exact oracleFrame_frameOut (hEnv.1 _ _) hme hwm hg
      · -- mapSlices
        intro env src dest st st' wm hEnv hwm hg hd h
        rcases src with _ | ⟨sa, sty⟩
        · simp [mapSlices] at h
        rcases dest with _ | ⟨da, dty⟩
        · cases sty <;> simp [mapSlices] at h
        cases sty <;> cases dty
        case TSlice.TSlice sElemTy dElemTy =>
            rw [mapSlices] at h
            split at h
            · next elems hread =>
                split at h
                · exact Option.noConfusion h
                · next addrs st₁ hal =>
                    obtain ⟨hext, hfresh⟩ := ihAZM env dElemTy elems.length st addrs st₁ hal
                    have hf₁ : FrameOut wm st st₁ :=
                      extendsFresh_frameOut hext hwm hg
                    have hda : wm ≤ da := hd
                    have hf₂ : FrameOut wm st₁ (writeCell st₁ da (.VSlice addrs)) :=
                      writeCell_frame hda hf₁.2.2
                        (by
                          intro b hb
                          unfold cellRefs at hb
                          exact le_trans hwm (hfresh b hb).1)
                    have hf₃ : FrameOut wm (writeCell st₁ da (.VSlice addrs)) st' :=
                      ihSLG env sElemTy dElemTy (elems.zip addrs)
                        (writeCell st₁ da (.VSlice addrs)) st' wm hEnv
                        (by
                          have := hf₂.2.1
                          have := hf₁.2.1
                          omega)
                        hf₂.2.2
                        (by
                          intro p hp
                          have hmem := (List.of_mem_zip hp).2
                          exact le_trans hwm (hfresh p.2 hmem).1)
                        h
                    exact frameOut_trans (frameOut_trans hf₁ hf₂) hf₃
            · exact Option.noConfusion h
        all_goals simp [mapSlices] at h
      · -- mapSlicesGo
        intro env sE dE pairs st st' wm hEnv hwm hg hps h
        rcases pairs with _ | ⟨⟨se, de⟩, rest⟩
        · rw [mapSlicesGo] at h
          cases h
          exact frameOut_refl hg
        · rw [mapSlicesGo] at h
          split at h
          · exact Option.noConfusion h
          · next st₁ hpv =>
              have hde : wm ≤ de := hps (se, de) (by simp)
              have hf₁ : FrameOut wm st st₁ :=
                ihPV env (some (se, sE)) (some (de, dE)) st st₁ wm hEnv hwm hg hde hpv
              have hf₂ : FrameOut wm st₁ st' :=
                ihSLG env sE dE rest st₁ st' wm hEnv (le_trans hwm hf₁.2.1)
                  hf₁.2.2
                  (by
                    intro p hp
                    exact hps p (by simp [hp]))
                  h
              exact frameOut_trans hf₁ hf₂
      · -- mapMaps
        intro env src dest st st' wm hEnv hwm hg hd h
        rcases src with _ | ⟨sa, sty⟩
        · simp [mapMaps] at h
        rcases dest with _ | ⟨da, dty⟩
        · cases sty <;> simp [mapMaps] at h
        cases sty <;> cases dty
        case TMap.TMap sKeyTy sValTy dKeyTy dValTy =>
            rw [mapMaps] at h
            split at h
            · next entries hread =>
                have hda : wm ≤ da := hd
                have hf₁ : FrameOut wm st (writeCell st da (.VMap [])) :=
                  writeCell_frame hda hg (by intro b hb; cases hb)
                have hf₂ : FrameOut wm (writeCell st da (.VMap [])) st' :=
                  ihMMG env sKeyTy sValTy dKeyTy dValTy entries da
                    (writeCell st da (.VMap [])) st' wm hEnv
                    (le_trans hwm hf₁.2.1) hf₁.2.2 hda h
                exact frameOut_trans hf₁ hf₂
            · exact Option.noConfusion h
        all_goals simp [mapMaps] at h
      · -- mapMapsGo
        intro env sK sV dK dV entries da st st' wm hEnv hwm hg hda h
        rcases entries with _ | ⟨⟨ka, va⟩, rest⟩
        · rw [mapMapsGo] at h
          cases h
          exact frameOut_refl hg
        · rw [mapMapsGo] at h
          split at h
          · exact Option.noConfusion h
          · next dk st₁ hak =>
              split at h
              · exact Option.noConfusion h
              · next dv st₂ hav =>
                obtain ⟨hext₁, hdk₁, hdk₂⟩ := ihAZ env dK st dk st₁ hak
                obtain ⟨hext₂, hdv₁, hdv₂⟩ := ihAZ env dV st₁ dv st₂ hav
                have hf₁ : FrameOut wm st st₂ :=
                  extendsFresh_frameOut (extendsFresh_trans hext₁ hext₂) hwm hg
                have hdk : wm ≤ dk := le_trans hwm hdk₁
                have hdv : wm ≤ dv := le_trans (le_trans hwm hext₁.2.1) hdv₁
                split at h
                · exact Option.noConfusion h
                · next st₃ hpv₁ =>
                    have hf₂ : FrameOut wm st₂ st₃ :=
                      ihPV env (some (ka, sK)) (some (dk, dK)) st₂ st₃ wm hEnv
                        (le_trans hwm hf₁.2.1) hf₁.2.2 hdk hpv₁
                    split at h
                    · exact Option.noConfusion h
                    · next st₄ hpv₂ =>
                        have hf₃ : FrameOut wm st₃ st₄ :=
                          ihPV env (some (va, sV)) (some (dv, dV)) st₃ st₄ wm hEnv
                            (le_trans (le_trans hwm hf₁.2.1) hf₂.2.1)
                            hf₂.2.2 hdv hpv₂
                        split at h
                        · exact Option.noConfusion h
                        · next st₅ hsmi =>
                            have hf₄ : FrameOut wm st₄ st₅ :=
                              setMapIndex_frame hda hdk hdv hf₃.2.2 hsmi
                            have hf₅ : FrameOut wm st₅ st' :=
                              ihMMG env sK sV dK dV rest da st₅ st' wm hEnv
                                (by
                                  have := hf₁.2.1
                                  have := hf₂.2.1
                                  have := hf₃.2.1
                                  have := hf₄.2.1
                                  omega)
                                hf₄.2.2 hda h
                            exact frameOut_trans
                              (frameOut_trans
                                (frameOut_trans (frameOut_trans hf₁ hf₂) hf₃)
                                hf₄) hf₅
      · -- mapPointers
        intro env src dest st st' wm hEnv hwm hg hd h
        rcases src with _ | ⟨sa, sty⟩
        · simp [mapPointers] at h
        rcases dest with _ | ⟨da, dty⟩
        · cases sty <;> simp [mapPointers] at h
        cases sty
        case TPtr sElemTy =>
            have hda : wm ≤ da := hd
            rw [mapPointers] at h
            split at h
            · exact ihWZ env dty da st st' wm hwm hg hda h
            · next pa hread =>
                split at h
                · next dElemTy =>
                    split at h
                    · exact Option.noConfusion h
                    · next na st₁ hal =>
                        obtain ⟨hext, hna₁, hna₂⟩ := ihAZ env dElemTy st na st₁ hal
                        have hna : wm ≤ na := le_trans hwm hna₁
                        have hf₁ : FrameOut wm st st₁ :=
                          extendsFresh_frameOut hext hwm hg
                        have hf₂ : FrameOut wm st₁ (writeCell st₁ da (.VPtr (some na))) :=
                          writeCell_frame hda hf₁.2.2
                            (by
                              intro b hb
                              unfold cellRefs at hb
                              simp only [List.mem_singleton] at hb
                              subst hb
                              exact hna)
                        have hf₃ : FrameOut wm (writeCell st₁ da (.VPtr (some na))) st' :=
                          ihPV env (some (pa, sElemTy)) (some (na, dElemTy)) _ st' wm hEnv
                            (by
                              have := hf₁.2.1
                              have := hf₂.2.1
                              omega)
                            hf₂.2.2 hna h
                        exact frameOut_trans (frameOut_trans hf₁ hf₂) hf₃
                · exact Option.noConfusion h
            · exact Option.noConfusion h
        all_goals simp [mapPointers] at h
      · -- allocZero
        intro env ty st a st' h
        cases ty <;> rw [allocZero] at h
        case TInt =>
          cases h
          exact ⟨extendsFresh_append _ (extendsFresh_refl st) (by intro b hb; cases hb),
            le_refl _, by simp⟩
        case TStr =>
          cases h
          exact ⟨extendsFresh_append _ (extendsFresh_refl st) (by intro b hb; cases hb),
            le_refl _, by simp⟩
        case TBool =>
          cases h
          exact ⟨extendsFresh_append _ (extendsFresh_refl st) (by intro b hb; cases hb),
            le_refl _, by simp⟩
        case TSlice =>
          cases h
          exact ⟨extendsFresh_append _ (extendsFresh_refl st) (by intro b hb; cases hb),
            le_refl _, by simp⟩
        case TMap =>
          cases h
          exact ⟨extendsFresh_append _ (extendsFresh_refl st) (by intro b hb; cases hb),
            le_refl _, by simp⟩
        case TPtr =>
          cases h
          exact ⟨extendsFresh_append _ (extendsFresh_refl st) (by intro b hb; cases hb),
            le_refl _, by simp⟩
        case TIface =>
          cases h
          exact ⟨extendsFresh_append _ (extendsFresh_refl st) (by intro b hb; cases hb),
            le_refl _, by simp⟩
        case TStruct n =>
          split at h
          · exact Option.noConfusion h
          · next fs st₁ haf =>
              cases h
              obtain ⟨hext, hbounds⟩ := ihAZF env _ st fs st₁ haf
              refine ⟨?_, hext.2.1, by simp⟩
              apply extendsFresh_append _ hext
              intro b hb
              unfold cellRefs at hb
              obtain ⟨p, hp, hpe⟩ := List.mem_map.mp hb
              exact hpe ▸ (hbounds p hp).1
      · -- allocZeroFields
        intro env fields st fs st' h
        rcases fields with _ | ⟨f, rest⟩
        · rw [allocZeroFields] at h
          cases h
          exact ⟨extendsFresh_refl st, by intro p hp; cases hp⟩
        · rw [allocZeroFields] at h
          split at h
          · exact Option.noConfusion h
          · next a st₁ haz =>
              split at h
              · exact Option.noConfusion h
              · next fs₂ stB haf =>
                  obtain ⟨hext₁, ha₁, ha₂⟩ := ihAZ env _ st a st₁ haz
                  obtain ⟨hext₂, hbounds⟩ := ihAZF env rest st₁ fs₂ stB haf
                  simp only [Option.some.injEq, Prod.mk.injEq] at h
                  obtain ⟨hfs, hst⟩ := h
                  subst hfs
                  subst hst
                  refine ⟨extendsFresh_trans hext₁ hext₂, ?_⟩
                  intro p hp
                  rcases List.mem_cons.mp hp with rfl | hp₂
                  · exact ⟨ha₁, lt_of_lt_of_le ha₂ hext₂.2.1⟩
                  · obtain ⟨hb₁, hb₂⟩ := hbounds p hp₂
                    exact ⟨le_trans hext₁.2.1 hb₁, hb₂⟩
      · -- allocZeroMany
        intro env ty n st addrs st' h
        rcases n with _ | n₂
        · rw [allocZeroMany] at h
          cases h
          exact ⟨extendsFresh_refl st, by intro a ha; cases ha⟩
        · rw [allocZeroMany] at h
          split at h
          · exact Option.noConfusion h
          · next a st₁ haz =>
              split at h
              · exact Option.noConfusion h
              · next rest stB ham =>
                  obtain ⟨hext₁, ha₁, ha₂⟩ := ihAZ env ty st a st₁ haz
                  obtain ⟨hext₂, hbounds⟩ := ihAZM env ty n₂ st₁ rest stB ham
                  simp only [Option.some.injEq, Prod.mk.injEq] at h
                  obtain ⟨hfs, hst⟩ := h
                  subst hfs
                  subst hst
                  refine ⟨extendsFresh_trans hext₁ hext₂, ?_⟩
                  intro b hb
                  rcases List.mem_cons.mp hb with rfl | hb₂
                  · exact ⟨ha₁, lt_of_lt_of_le ha₂ hext₂.2.1⟩
                  · obtain ⟨hb₃, hb₄⟩ := hbounds b hb₂
                    exact ⟨le_trans hext₁.2.1 hb₃, hb₄⟩
      · -- writeZeroVal
        intro env ty a st st' wm hwm hg ha h
        cases ty <;> rw [writeZeroVal] at h
        case TInt =>
          cases h
          exact writeCell_frame ha hg (by intro b hb; cases hb)
        case TStr =>
          cases h
          exact writeCell_frame ha hg (by intro b hb; cases hb)
        case TBool =>
          cases h
          exact writeCell_frame ha hg (by intro b hb; cases hb)
        case TSlice =>
          cases h
          exact writeCell_frame ha hg (by intro b hb; cases hb)
        case TMap =>
          cases h
          exact writeCell_frame ha hg (by intro b hb; cases hb)
        case TPtr =>
          cases h
          exact writeCell_frame ha hg (by intro b hb; cases hb)
        case TIface =>
          cases h
          exact writeCell_frame ha hg (by intro b hb; cases hb)
        case TStruct n =>
          split at h
          · next fs hread =>
              apply ihWZF env _ fs st st' wm hwm hg ?_ h
              intro p hp
              exact hg a (.VStruct fs) ha hread p.2
                (List.mem_map_of_mem _ hp)
          · exact Option.noConfusion h
      · -- writeZeroFields
        intro env fields fs st st' wm hwm hg hfs h
        rcases fields with _ | ⟨f, rest⟩
        · rw [writeZeroFields] at h
          cases h
          exact frameOut_refl hg
        · rw [writeZeroFields] at h
          split at h
          · exact Option.noConfusion h
          · next fa hfa =>
              split at h
              · exact Option.noConfusion h
              · next st₁ hwz =>
                  have hfaw : wm ≤ fa := by
                    have hmem := lookupA_mem_map hfa
                    obtain ⟨p, hp, hpe⟩ := List.mem_map.mp hmem
                    exact hpe ▸ hfs p hp
                  have hf₁ : FrameOut wm st st₁ :=
                    ihWZ env _ fa st st₁ wm hwm hg hfaw hwz
                  have hf₂ : FrameOut wm st₁ st' :=
                    ihWZF env rest fs st₁ st' wm (le_trans hwm hf₁.2.1)
                      hf₁.2.2 hfs h
                  exact frameOut_trans hf₁ hf₂

theorem processValues_frame (fuel : Nat) :
    ∀ env src dest st st' wm, EnvFrame env → wm ≤ st.length →
      goodAbove wm st → destOK wm dest →
      processValues env fuel src dest st = some st' → FrameOut wm st st' :=
  (engine_frame fuel).1

theorem allocZero_fresh (fuel : Nat) :
    ∀ env ty st a st', allocZero env fuel ty st = some (a, st') →
      ExtendsFresh st st' ∧ st.length ≤ a ∧ a < st'.length :=
  (engine_frame fuel).2.2.2.2.2.2.2.2.2.1

theorem writeCell_goodAbove_below {wm : Nat} {st : Store} {a : Addr}
    {v : GoVal} (ha : a < wm) (hg : goodAbove wm st) :
    goodAbove wm (writeCell st a v) := by
  intro c w hcw hr
  have hne : a ≠ c := Nat.ne_of_lt (lt_of_lt_of_le ha hcw)
  rw [readCell_writeCell_ne st a v c hne] at hr
  exact hg c w hcw hr

theorem mapArray_frame {env : MapperEnv} {fid : String} {srcRef desRef : Addr}
    {srcTy desTy : GoType} {st st' : Store} {wm : Nat}
    (hEnv : EnvFrame env) (hwm : wm ≤ st.length) (hg : goodAbove wm st)
    (hdes : wm ≤ desRef)
    (h : mapArray env fid srcRef srcTy desRef desTy st = some st') :
    FrameOut wm st st' := by
  unfold mapArray at h
  split at h
  · split at h
    · next elems hread =>
        exact mapArrayGo_frame hEnv hwm hg hdes (by intro a ha; cases ha) h
    · exact Option.noConfusion h
  · exact Option.noConfusion h

/-- C10: whenever `Map` returns normally, it has not mutated the source
value or anything reachable from it — every heap cell that existed
before the call (the entire source object graph lives among them) is
unchanged, the store only grows, and the returned destination root is
freshly allocated.  Hypothesis: the user-code oracles (custom
transforms, accessor methods) respect the frame obligation — the
engine itself performs no destructive read or write below the
watermark. -/
theorem map_does_not_mutate_source (env : MapperEnv) (fuel : Nat)
    (mapsReg : List ((GoType × GoType) × MapEntry)) (srcTy desTy : GoType)
    (srcRef desRef : Addr) (st st' : Store) (hEnv : EnvFrame env)
    (h : goMap env fuel mapsReg srcTy desTy srcRef st =
      some (Except.ok (desRef, st'))) :
    (∀ a, a < st.length → readCell st' a = readCell st a) ∧
      st.length ≤ st'.length ∧ st.length ≤ desRef := by
  unfold goMap at h
  rcases hal : allocZero env fuel desTy st with _ | ⟨desRef₀, st₀⟩
  · rw [hal] at h
    exact Option.noConfusion h
  rw [hal] at h
  dsimp only at h
  obtain ⟨hext₀, hdes₀, hdes₁⟩ := allocZero_fresh fuel env desTy st desRef₀ st₀ hal
  have hf₀ : FrameOut st.length st st₀ :=
    extendsFresh_frameOut hext₀ (le_refl _) (goodAbove_of_length st)
  rcases hgm : getMappingFunction mapsReg (getElementType srcTy).1
      (getElementType desTy).1 with e | fn
  · rw [hgm] at h
    dsimp only at h
    exact absurd h (by simp)
  rw [hgm] at h
  dsimp only at h
  rcases fn with _ | _ | fid
  · -- generated entry: the processValues pass
    dsimp only at h
    rcases hpv : processValues env fuel (some (srcRef, srcTy))
        (some (desRef₀, desTy)) st₀ with _ | st₂
    · rw [hpv] at h
      exact Option.noConfusion h
    rw [hpv] at h
    dsimp only at h
    simp only [Option.some.injEq, Except.ok.injEq, Prod.mk.injEq] at h
    obtain ⟨hdr, hst⟩ := h
    subst hdr
    subst hst
    have hf₂ : FrameOut st.length st₀ st₂ :=
      processValues_frame fuel env (some (srcRef, srcTy))
        (some (desRef₀, desTy)) st₀ st₂ st.length hEnv hf₀.2.1 hf₀.2.2
        (show destOK st.length (some (desRef₀, desTy)) from hdes₀) hpv
    have hall := frameOut_trans hf₀ hf₂
    exact ⟨fun a ha => hall.1 a ha, hall.2.1, hdes₀⟩
  · -- marker entry: Call on struct value panics
    dsimp only at h
    exact Option.noConfusion h
  · -- custom entry
    dsimp only at h
    split at h
    · -- sequence shape: mapArray, then the generic pass
      rcases hma : mapArray env fid srcRef srcTy desRef₀ desTy st₀ with _ | st₁
      · rw [hma] at h
        exact Option.noConfusion h
      rw [hma] at h
      dsimp only at h
      rcases hpv : processValues env fuel (some (srcRef, srcTy))
          (some (desRef₀, desTy)) st₁ with _ | st₂
      · rw [hpv] at h
        exact Option.noConfusion h
      rw [hpv] at h
      dsimp only at h
      simp only [Option.some.injEq, Except.ok.injEq, Prod.mk.injEq] at h
      obtain ⟨hdr, hst⟩ := h
      subst hdr
      subst hst
      have hf₁ : FrameOut st.length st₀ st₁ :=
        mapArray_frame hEnv hf₀.2.1 hf₀.2.2 hdes₀ hma
      have hf₂ : FrameOut st.length st₁ st₂ :=
        processValues_frame fuel env (some (srcRef, srcTy))
          (some (desRef₀, desTy)) st₁ st₂ st.length hEnv
          (le_trans hf₀.2.1 hf₁.2.1) hf₁.2.2
          (show destOK st.length (some (desRef₀, desTy)) from hdes₀) hpv
      have hall := frameOut_trans (frameOut_trans hf₀ hf₁) hf₂
      exact ⟨fun a ha => hall.1 a ha, hall.2.1, hdes₀⟩
    · -- scalar shape: direct transform application
      rcases hor : env.funcs fid st₀ srcRef with _ | ⟨st₁, rv⟩
      · rw [hor] at h
        exact Option.noConfusion h
      rw [hor] at h
      dsimp only at h
      simp only [Option.some.injEq, Except.ok.injEq, Prod.mk.injEq] at h
      obtain ⟨hdr, hst⟩ := h
      subst hdr
      subst hst
      obtain ⟨hext₁, hrv₀, hrv₁⟩ := (hEnv.2 _) st₀ srcRef st₁ rv hor
      have hextc := extendsFresh_trans hext₀ hext₁
      exact ⟨fun a ha => hextc.1 a ha, hextc.2.1, le_trans hext₀.2.1 hrv₀⟩

/-- C7: transferring a reference: a nil source pointer sets the
destination pointer slot exactly to nil (one cell write, nothing else);
a populated source pointer allocates a fresh destination target — an
address not present in the pre-call store — recursively transfers the
referenced value into it, and leaves the destination slot pointing at
that new target. -/
theorem mapPointers_null_and_fresh_target (env : MapperEnv) (fuel : Nat)
    (sa da pa : Addr) (sety dety : GoType) (st st' : Store)
    (hEnv : EnvFrame env) (hda : da < st.length) :
    (readCell st sa = some (.VPtr none) →
      mapPointers env (fuel + 2) (some (sa, .TPtr sety))
        (some (da, .TPtr dety)) st = some (writeCell st da (.VPtr none))) ∧
    (readCell st sa = some (.VPtr (some pa)) →
      mapPointers env (fuel + 2) (some (sa, .TPtr sety))
        (some (da, .TPtr dety)) st = some st' →
      ∃ na stM, allocZero env (fuel + 1) dety st = some (na, stM) ∧
        st.length ≤ na ∧
        processValues env (fuel + 1) (some (pa, sety)) (some (na, dety))
          (writeCell stM da (.VPtr (some na))) = some st' ∧
        readCell st' da = some (.VPtr (some na))) := by
  constructor
  · intro hread
    rw [mapPointers, hread]
    rfl
  · intro hread h
    rw [mapPointers] at h
    rw [hread] at h
    dsimp only at h
    rcases hal : allocZero env (fuel + 1) dety st with _ | ⟨na, stM⟩
    · rw [hal] at h
      exact Option.noConfusion h
    rw [hal] at h
    dsimp only at h
    obtain ⟨hext, hna₀, hna₁⟩ := allocZero_fresh (fuel + 1) env dety st na stM hal
    refine ⟨na, stM, rfl, hna₀, h, ?_⟩
    have hgA : goodAbove st.length (writeCell stM da (.VPtr (some na))) :=
      writeCell_goodAbove_below hda (extendsFresh_goodAbove hext)
    have hwmA : st.length ≤ (writeCell stM da (.VPtr (some na))).length := by
      have := hext.2.1
      simp [writeCell]
      omega
    have hfr := processValues_frame (fuel + 1) env (some (pa, sety))
      (some (na, dety)) (writeCell stM da (.VPtr (some na))) st' st.length hEnv
      hwmA hgA (show destOK st.length (some (na, dety)) from hna₀) h
    have hpres := hfr.1 da hda
    rw [hpres]
    exact readCell_writeCell_self stM da (.VPtr (some na))
      (lt_of_lt_of_le hda hext.2.1)

/-- Entry-count bound for the map-transfer loop: starting from a
destination map cell holding `es`, processing `entries` source entries
performs one insertion each, so the destination cell ends with at most
`es.length + entries.length` entries (an insertion on an already-present
transferred key overwrites instead of adding). -/
theorem mapMapsGo_count {env : MapperEnv} (hEnv : EnvFrame env) :
    ∀ (entries : List (Addr × Addr)) (fuel : Nat) (sK sV dK dV : GoType)
      (da : Addr) (st st' : Store) (es : List (Addr × Addr)),
      da < st.length → readCell st da = some (.VMap es) →
      mapMapsGo env fuel sK sV dK dV entries da st = some st' →
      ∃ es', readCell st' da = some (.VMap es') ∧
        es'.length ≤ es.length + entries.length ∧ da < st'.length ∧
        st.length ≤ st'.length := by
  intro entries
  induction entries with
  | nil =>
      intro fuel sK sV dK dV da st st' es hda hread h
      cases fuel with
      | zero =>
          rw [mapMapsGo] at h
          exact Option.noConfusion h
      | succ f =>
          rw [mapMapsGo] at h
          cases h
          exact ⟨es, hread, by simp, hda, le_refl _⟩
  | cons e rest ih =>
      intro fuel sK sV dK dV da st st' es hda hread h
      obtain ⟨ka, va⟩ := e
      cases fuel with
      | zero =>
          rw [mapMapsGo] at h
          exact Option.noConfusion h
      | succ f =>
          rw [mapMapsGo] at h
          split at h
          · exact Option.noConfusion h
          · next dk st₁ hak =>
              split at h
              · exact Option.noConfusion h
              · next dv st₂ hav =>
                  split at h
                  · exact Option.noConfusion h
                  · next st₃ hpv₁ =>
                      split at h
                      · exact Option.noConfusion h
                      · next st₄ hpv₂ =>
                          split at h
                          · exact Option.noConfusion h
                          · next st₅ hsmi =>
                              obtain ⟨hext₁, hdk₀, hdk₁⟩ :=
                                allocZero_fresh f env dK st dk st₁ hak
                              obtain ⟨hext₂, hdv₀, hdv₁⟩ :=
                                allocZero_fresh f env dV st₁ dv st₂ hav
                              have hext := extendsFresh_trans hext₁ hext₂
                              have hf₁ := processValues_frame f env
                                (some (ka, sK)) (some (dk, dK)) st₂ st₃
                                st.length hEnv hext.2.1
                                (extendsFresh_goodAbove hext)
                                (show destOK st.length (some (dk, dK)) from hdk₀)
                                hpv₁
                              have hf₂ := processValues_frame f env
                                (some (va, sV)) (some (dv, dV)) st₃ st₄
                                st.length hEnv (le_trans hext.2.1 hf₁.2.1)
                                hf₁.2.2
                                (show destOK st.length (some (dv, dV)) from
                                  le_trans hext₁.2.1 hdv₀)
                                hpv₂
                              have hread₂ : readCell st₂ da = some (.VMap es) := by
                                rw [hext.1 da hda]
                                exact hread
                              have hread₄ : readCell st₄ da = some (.VMap es) := by
                                rw [hf₂.1 da hda, hf₁.1 da hda]
                                exact hread₂
                              have hda₄ : da < st₄.length :=
                                lt_of_lt_of_le hda
                                  (le_trans hext.2.1
                                    (le_trans hf₁.2.1 hf₂.2.1))
                              unfold setMapIndex at hsmi
                              rw [hread₄] at hsmi
                              dsimp only at hsmi
                              rcases hms : mapAssocSet f st₄ dk dv es with _ | es₂
                              · rw [hms] at hsmi
                                exact Option.noConfusion hsmi
                              rw [hms] at hsmi
                              dsimp only at hsmi
                              have hst₅ : st₅ = writeCell st₄ da (.VMap es₂) :=
                                (Option.some.inj hsmi).symm
                              subst hst₅
                              have hlen₂ := mapAssocSet_length hms
                              have hread₅ : readCell
                                  (writeCell st₄ da (.VMap es₂)) da =
                                  some (.VMap es₂) :=
                                readCell_writeCell_self st₄ da (.VMap es₂) hda₄
                              have hda₅ : da < (writeCell st₄ da (.VMap es₂)).length := by
                                simpa [writeCell] using hda₄
                              obtain ⟨es', hr', hl', hda', hlen'⟩ :=
                                ih f sK sV dK dV da _ st' es₂ hda₅ hread₅ h
                              refine ⟨es', hr', ?_, hda', ?_⟩
                              · simp only [List.length_cons]
                                omega
                              · have h₁ := hext.2.1
                                have h₂ := hf₁.2.1
                                have h₃ := hf₂.2.1
                                have h₄ : (writeCell st₄ da (.VMap es₂)).length =
                                    st₄.length := by simp [writeCell]
                                omega

/-- C6 amended: transferring an associative container performs one
insertion per source entry (in iteration order), but an insertion whose
transferred key is already present overwrites the earlier entry, so the
destination ends with at most — not exactly — as many entries as the
source. -/
theorem mapMaps_at_most_one_entry_per_source (env : MapperEnv) (fuel : Nat)
    (sa da : Addr) (sK sV dK dV : GoType) (entries : List (Addr × Addr))
    (st st' : Store) (hEnv : EnvFrame env) (hda : da < st.length)
    (hread : readCell st sa = some (.VMap entries))
    (h : mapMaps env (fuel + 1) (some (sa, .TMap sK sV))
      (some (da, .TMap dK dV)) st = some st') :
    ∃ es', readCell st' da = some (.VMap es') ∧
      es'.length ≤ entries.length := by
  rw [mapMaps] at h
  split at h
  · next entries₂ hread₂ =>
      rw [hread] at hread₂
      have hent : entries = entries₂ := by
        simpa using hread₂
      subst hent
      have hda₂ : da < (writeCell st da (.VMap [])).length := by
        simpa [writeCell] using hda
      have hread₀ : readCell (writeCell st da (.VMap [])) da =
          some (.VMap []) :=
        readCell_writeCell_self st da (.VMap []) hda
      obtain ⟨es', hr', hl', _, _⟩ :=
        mapMapsGo_count hEnv entries fuel sK sV dK dV da _ st' [] hda₂ hread₀ h
      exact ⟨es', hr', by simpa using hl'⟩
  · exact Option.noConfusion h

theorem envGen_frame : EnvFrame envGen :=
  ⟨fun _ _ _ _ _ _ h => Option.noConfusion h,
   fun _ _ _ _ _ h => Option.noConfusion h⟩

theorem envAssoc_frame : EnvFrame envAssoc :=
  ⟨fun _ _ _ _ _ _ h => Option.noConfusion h,
   fun _ _ _ _ _ h => Option.noConfusion h⟩

/-- Witness for the amended C6 theorem at the concrete two-entry run of
the counterexample: the destination ends with one entry, within the
proved bound of two. -/
theorem mapMaps_at_most_one_entry_per_source_witness :
    EnvFrame envAssoc ∧
      ∃ es',
        readCell
          [.VInt 1, .VStruct [("X", 0)], .VInt 10, .VInt 2, .VStruct [("X", 3)],
           .VInt 20, .VMap [(1, 2), (4, 5)], .VMap [(9, 13)], .VInt 0,
           .VStruct [("X", 8)], .VInt 10, .VInt 0, .VStruct [("X", 11)],
           .VInt 20] 7 = some (.VMap es') ∧
        es'.length ≤ ([(1, 2), (4, 5)] : List (Addr × Addr)).length :=
  ⟨envAssoc_frame,
    mapMaps_at_most_one_entry_per_source envAssoc 99 6 7 (.TStruct "Ks") .TInt
      (.TStruct "Kd") .TInt [(1, 2), (4, 5)]
      [.VInt 1, .VStruct [("X", 0)], .VInt 10, .VInt 2, .VStruct [("X", 3)],
       .VInt 20, .VMap [(1, 2), (4, 5)], .VMap []]
      [.VInt 1, .VStruct [("X", 0)], .VInt 10, .VInt 2, .VStruct [("X", 3)],
       .VInt 20, .VMap [(1, 2), (4, 5)], .VMap [(9, 13)], .VInt 0,
       .VStruct [("X", 8)], .VInt 10, .VInt 0, .VStruct [("X", 11)],
       .VInt 20]
      envAssoc_frame (by decide) rfl rfl⟩

/-- Witness for C7 at a concrete nil-pointer transfer. -/
theorem mapPointers_null_and_fresh_target_witness :
    EnvFrame envGen ∧ (2 : Addr) < ([.VInt 7, .VPtr none, .VPtr none] : Store).length ∧
      (readCell [.VInt 7, .VPtr none, .VPtr none] 1 = some (.VPtr none) →
        mapPointers envGen (48 + 2) (some (1, .TPtr .TInt))
          (some (2, .TPtr .TInt)) [.VInt 7, .VPtr none, .VPtr none] =
          some (writeCell [.VInt 7, .VPtr none, .VPtr none] 2 (.VPtr none))) :=
  ⟨envGen_frame, by decide,
    (mapPointers_null_and_fresh_target envGen 48 1 2 0 .TInt .TInt
      [.VInt 7, .VPtr none, .VPtr none] [] envGen_frame (by decide)).1⟩

/-- Witness for C10 at a concrete generated-profile run: mapping
`Source{Name: "Hello"}` to `Destination` leaves the two pre-existing
cells untouched and returns a freshly allocated root. -/
theorem map_does_not_mutate_source_witness :
    EnvFrame envGen ∧
      ((∀ a, a < ([.VStr "Hello", .VStruct [("Name", 0)]] : Store).length →
          readCell
            [.VStr "Hello", .VStruct [("Name", 0)], .VStr "Hello",
             .VStruct [("Name", 2)]] a =
          readCell [.VStr "Hello", .VStruct [("Name", 0)]] a) ∧
        ([.VStr "Hello", .VStruct [("Name", 0)]] : Store).length ≤
          ([.VStr "Hello", .VStruct [("Name", 0)], .VStr "Hello",
            .VStruct [("Name", 2)]] : Store).length ∧
        ([.VStr "Hello", .VStruct [("Name", 0)]] : Store).length ≤ 3) :=
  ⟨envGen_frame,
    map_does_not_mutate_source envGen 100
      [((.TStruct "Source", .TStruct "Destination"), MapEntry.generated)]
      (.TStruct "Source") (.TStruct "Destination") 1 3
      [.VStr "Hello", .VStruct [("Name", 0)]]
      [.VStr "Hello", .VStruct [("Name", 0)], .VStr "Hello",
       .VStruct [("Name", 2)]]
      envGen_frame rfl⟩

/-- C8 (code defect): the refactored `processValues` (part_002 lines
717-736) — the variant the rest of this development models — has none of
the invalid/kind-mismatch guards the specification describes: it
dispatches on the source kind alone, so a scalar source whose kind
differs from the destination's reaches `dest.Set(src)` and panics
(`none`) instead of returning without error and leaving the destination
at its zero value, and an invalid source likewise panics through `Set`.
The mismatch is reachable from the public API: `CreateMap` matches
fields by name only, so `Source{X int}` / `Destination{X string}`
registers with the correspondence `("X", "X")` in the cached profile
(first conjunct), and the subsequent `Map` call on `Source{X: 5}` panics
(last conjunct) rather than yielding `Destination{}` with a nil error.
Only the older variant of the file (part_002 lines 304-346) carries the
guards the specification states. -/
theorem processValues_mismatch_panics :
    AList.lookupA (goCreateMap
        [("Source", ⟨[("X", "", .TInt)], []⟩),
         ("Destination", ⟨[("X", "", .TStr)], []⟩)] ["X"]
        (.TStruct "Source") (.TStruct "Destination") ⟨[], []⟩).2.profiles
      "Source_Destination" = some [("X", "X")] ∧
    processValues envMismatch 10 (some (0, .TInt)) (some (2, .TStr))
      [.VInt 5, .VStruct [("X", 0)], .VStr ""] = none ∧
    processValues envMismatch 10 none (some (2, .TStr))
      [.VInt 5, .VStruct [("X", 0)], .VStr ""] = none ∧
    goMap envMismatch 20
      [((.TStruct "Source", .TStruct "Destination"), MapEntry.generated)]
      (.TStruct "Source") (.TStruct "Destination") 1
      [.VInt 5, .VStruct [("X", 0)]] = none :=
  ⟨rfl, rfl, rfl, rfl⟩
